import Mathlib

/-!
# Motor manager, PID controller and lift limits of ose-14-15

A shallow embedding of `libsml/SmartMotorLibrary.c`,
`libsml/SingleThreadPIDController.c` and the two side setters of
`vulcan/Lift.c`.

Conventions of the embedding.

* A C `int` is a 32-bit two's-complement value, carried in `Int`. Where an
  operation of the source can leave the `int` range the result is reduced by
  `wrapInt`, which is what the compiled code does; ISO C leaves those cases
  undefined.
* `unsigned long` (the clocks `millis()` and `micros()`) is arithmetic modulo
  `2^32`.
* A `double` is an IEEE 754 binary64 value, `Double`: a finite value carried
  as the rational it denotes, the two infinities, or NaN. Every product and
  every sum is rounded to the nearest value of the format, a tie going to the
  even significand (`binary64`), and becomes an infinity beyond the largest
  finite value. The two zeros are not told apart; no operation of the sources
  distinguishes them.
* The cast `(int)` of a `double` truncates toward zero. For a value outside the
  `int` range, an infinity or NaN, ISO C leaves the cast undefined; the
  embedding gives `INT_MIN` there, the value the conversion instruction of
  x86 produces. The worked cases below in which a cast leaves the range are
  of negative values, for which a saturating conversion gives `INT_MIN` too.
* Each call of `millis()` is a reading of its own: the three calls in the body
  of the loop of `MotorManagerTask` are the three fields of `Millis`.
* `mutexTake(Mutexes[i], MUTEX_TAKE_TIMEOUT)` is answered by the state: the
  field `mutexFree i` says whether the take succeeds. Take and give are
  paired inside each function, so the field is not changed by them.
* `motorSet(port, v)` and `motorGet(port)` of the platform are a store and a
  load on `hw`, the hardware outputs by port number.
-/

namespace SML

/-! ## Machine integers -/

/-- Two's-complement reduction of an integer to the range of a 32-bit `int`. -/
def wrapInt (x : Int) : Int := (x + 2147483648) % 4294967296 - 2147483648

/-- Reduction modulo `2^32`, the arithmetic of `unsigned long`. -/
def wrapULong (x : Int) : Int := x % 4294967296

/-- The library function `abs` on `int`: the negation wraps, so that
`abs(INT_MIN)` is `INT_MIN`. -/
def cAbs (x : Int) : Int := if x < 0 then wrapInt (-x) else x

/-- Truncation of a rational toward zero: the fractional part is dropped. -/
def truncQ (q : ℚ) : Int := if 0 ≤ q then ⌊q⌋ else ⌈q⌉

/-! ## Doubles -/

/-- Rounding of a rational to the nearest integer, a tie going to the even
neighbour. -/
def roundHalfEven (q : ℚ) : Int :=
  if q - (⌊q⌋ : ℚ) < 1 / 2 then ⌊q⌋
  else if 1 / 2 < q - (⌊q⌋ : ℚ) then ⌊q⌋ + 1
  else if ⌊q⌋ % 2 = 0 then ⌊q⌋ else ⌊q⌋ + 1

/-- The binary exponent of the unit in the last place of the binary64 format
at `q`: 52 below the exponent of `q`, which is at least `-1022` (below that
the values are subnormal and share the exponent `-1074`). -/
def ulpExponent (q : ℚ) : Int := max (Int.log 2 |q|) (-1022) - 52

/-- Rounding of a rational to the binary64 format with 53 significant bits,
to nearest, ties to even; the exponent is not bounded above here. -/
def binary64 (q : ℚ) : ℚ := (roundHalfEven (q / 2 ^ ulpExponent q) : ℚ) * 2 ^ ulpExponent q

/-- A value of the C type `double`. -/
inductive Double where
  | finite (value : ℚ)
  | posInf
  | negInf
  | nan
  deriving DecidableEq, Repr

/-- The `double` an exact result is delivered as: rounded to the format, and
an infinity when the rounded value reaches `2^1024`. It is also the `double`
a decimal constant of the source denotes. -/
def Double.ofRat (q : ℚ) : Double :=
  if 2 ^ 1024 ≤ binary64 q then Double.posInf
  else if binary64 q ≤ -2 ^ 1024 then Double.negInf
  else Double.finite (binary64 q)

/-- The conversion of an `int`, a `long` or an `unsigned long` to `double`;
every 32-bit integer is a value of the format, so nothing is rounded. -/
def Double.ofInt (n : Int) : Double := Double.finite (n : ℚ)

/-- The product of two doubles. -/
def Double.mul : Double → Double → Double
  | Double.finite a, Double.finite b => Double.ofRat (a * b)
  | Double.nan, _ => Double.nan
  | _, Double.nan => Double.nan
  | Double.finite a, Double.posInf =>
    if a = 0 then Double.nan else if 0 < a then Double.posInf else Double.negInf
  | Double.finite a, Double.negInf =>
    if a = 0 then Double.nan else if 0 < a then Double.negInf else Double.posInf
  | Double.posInf, Double.finite b =>
    if b = 0 then Double.nan else if 0 < b then Double.posInf else Double.negInf
  | Double.negInf, Double.finite b =>
    if b = 0 then Double.nan else if 0 < b then Double.negInf else Double.posInf
  | Double.posInf, Double.posInf => Double.posInf
  | Double.negInf, Double.negInf => Double.posInf
  | Double.posInf, Double.negInf => Double.negInf
  | Double.negInf, Double.posInf => Double.negInf

/-- The sum of two doubles. -/
def Double.add : Double → Double → Double
  | Double.finite a, Double.finite b => Double.ofRat (a + b)
  | Double.nan, _ => Double.nan
  | _, Double.nan => Double.nan
  | Double.posInf, Double.negInf => Double.nan
  | Double.negInf, Double.posInf => Double.nan
  | Double.posInf, _ => Double.posInf
  | _, Double.posInf => Double.posInf
  | Double.negInf, _ => Double.negInf
  | _, Double.negInf => Double.negInf

/-- The comparison `<` of two doubles; it is false when either is NaN. -/
def Double.lt : Double → Double → Bool
  | Double.finite a, Double.finite b => decide (a < b)
  | Double.nan, _ => false
  | _, Double.nan => false
  | _, Double.negInf => false
  | Double.posInf, _ => false
  | Double.negInf, _ => true
  | Double.finite _, Double.posInf => true

/-- The cast `(int)` applied to a `double`: the fractional part is dropped
(truncation toward zero). Where the truncated value is no `int`, and for the
infinities and NaN, the result is `INT_MIN`. -/
def castInt : Double → Int
  | Double.finite q =>
    if -2147483648 ≤ truncQ q ∧ truncQ q ≤ 2147483647 then truncQ q else -2147483648
  | _ => -2147483648

/-! ## SmartMotorLibrary.c -/

/-- Modelled from the spec: the `Motor` struct of `sml/SmartMotorLibrary.h`
(the header is not among the sources). The fields are the ones
`SmartMotorLibrary.c` reads and writes. -/
structure Motor where
  channel : Int
  commanded : Int
  inverted : Bool
  skewPerMsec : Double
  lastUpdate : Int
  RecalculateCommanded : Int → Int

/-- The static data of `SmartMotorLibrary.c` together with the hardware
outputs. `Motors i` and `mutexFree i` are element `i` of `Motors[10]` and of
`Mutexes[10]`; the declared elements are `0..9`. `hw p` is the output of
motor port `p`. -/
structure MotorState where
  Motors : Int → Motor
  mutexFree : Int → Bool
  hw : Int → Int

/-- An access of a static array outside its ten declared elements. -/
inductive Fault where
  | outOfBounds (index : Int)
  deriving DecidableEq, Repr

/-- The function `DefaultRecalculate`: returns its input. -/
def DefaultRecalculate (x : Int) : Int := x

/-- The function `MotorSet(channel, set, immediate)`: the returned flag and
the state after the call. -/
def MotorSet (st : MotorState) (channel set : Int) (immediate : Bool) : Bool × MotorState :=
  if channel > 10 ∨ channel < 1 then (false, st)
  else
    let set := if cAbs set > 127 then wrapInt (127 * Int.tdiv set (cAbs set)) else set
    let channel := channel - 1
    if st.mutexFree channel = false then (false, st)
    else
      let m := st.Motors channel
      let out := wrapInt (set * (if m.inverted then 1 else -1))
      let st1 : MotorState :=
        { st with Motors := Function.update st.Motors channel { m with commanded := out } }
      if immediate then
        (true, { st1 with hw := Function.update st1.hw (channel + 1) out })
      else (true, st1)

/-- The function `MotorGet(channel)`. -/
def MotorGet (st : MotorState) (channel : Int) : Int :=
  if channel > 10 ∨ channel < 1 then 0
  else
    let channel := channel - 1
    if st.mutexFree channel = false then 0
    else
      wrapInt ((st.Motors channel).commanded * (if (st.Motors channel).inverted then 1 else -1))

/-- The function `MotorConfigure(channel, inverted, skewPerMsec)`. The guard of the source
lets `channel = 0` and `channel = 11` through; the array element they select
does not exist, which is reported as a fault. -/
def MotorConfigure (st : MotorState) (channel : Int) (inverted : Bool) (skewPerMsec : Double) :
    Except Fault MotorState :=
  if channel < 0 ∨ channel > 11 then Except.ok st
  else
    let channel := channel - 1
    if channel < 0 ∨ 10 ≤ channel then Except.error (Fault.outOfBounds channel)
    else if st.mutexFree channel = false then Except.ok st
    else
      let m : Motor :=
        { st.Motors channel with
          channel := channel + 1, inverted := inverted, skewPerMsec := skewPerMsec,
          RecalculateCommanded := DefaultRecalculate }
      Except.ok { st with Motors := Function.update st.Motors channel m }

/-- The function `MotorChangeRecalculateCommanded(channel, func)`, with the same guard as
`MotorConfigure`. -/
def MotorChangeRecalculateCommanded (st : MotorState) (channel : Int) (func : Int → Int) :
    Except Fault MotorState :=
  if channel < 0 ∨ channel > 11 then Except.ok st
  else
    let channel := channel - 1
    if channel < 0 ∨ 10 ≤ channel then Except.error (Fault.outOfBounds channel)
    else if st.mutexFree channel = false then Except.ok st
    else
      let m : Motor := { st.Motors channel with RecalculateCommanded := func }
      Except.ok { st with Motors := Function.update st.Motors channel m }

/-- The time `millis() - Motors[i].lastUpdate`, an `unsigned long`. -/
def elapsedMsec (now lastUpdate : Int) : Int := wrapULong (now - lastUpdate)

/-- The readings of `millis()` while the loop of `MotorManagerTask` handles one
motor: `test` in the comparison of line 72, `step` in the step of line 79 and
`stamp` in the assignment of line 82. A line that is not reached does not
read the clock. -/
structure Millis where
  test : Int
  step : Int
  stamp : Int
  deriving DecidableEq, Repr

/-- Lines 66 to 81 of `MotorManagerTask`: the value handed to `motorSet` for a
motor whose output is `current` and whose recalculated target is `command`,
or `none` when the output already equals the target and nothing is written.
`elapsedTest` and `elapsedStep` are the values of
`millis() - Motors[i].lastUpdate` in line 72 and in line 79. -/
def rampWrite (current command : Int) (skew : Double) (elapsedTest elapsedStep : Int) :
    Option Int :=
  if current ≠ command then
    if Double.lt (Double.ofInt (cAbs (wrapInt (command - current))))
        (Double.mul skew (Double.ofInt elapsedTest)) = true then
      some command
    else
      some (wrapInt (current +
        castInt (Double.mul (Double.mul skew (Double.ofInt elapsedStep))
          (Double.ofInt (if wrapInt (command - current) > 0 then 1 else -1)))))
  else none

/-- The body of the `for` loop of `MotorManagerTask` for array index `i`
(motor port `i + 1`), with `t` the readings of `millis()`. -/
def managerVisit (st : MotorState) (t : Millis) (i : Int) : MotorState :=
  if st.mutexFree i = false then st
  else
    let m := st.Motors i
    let st1 : MotorState :=
      match rampWrite (st.hw (i + 1)) (m.RecalculateCommanded m.commanded) m.skewPerMsec
          (elapsedMsec t.test m.lastUpdate) (elapsedMsec t.step m.lastUpdate) with
      | some v => { st with hw := Function.update st.hw (i + 1) v }
      | none => st
    { st1 with Motors := Function.update st1.Motors i { m with lastUpdate := t.stamp } }

/-- One turn of the `while` loop of `MotorManagerTask`: the ten motors in
order, `clock i` being the readings of `millis()` while motor `i` is
handled. -/
def managerPass (st : MotorState) (clock : Int → Millis) : MotorState :=
  (List.range 10).foldl (fun (s : MotorState) (i : Nat) => managerVisit s (clock i) i) st

/-- The function `MotorManagerTask`, which loops forever, after as many turns
of its `while` loop as there are elements in `clocks`; each element gives the
readings of `millis()` of one turn. -/
def MotorManagerTask (st : MotorState) (clocks : List (Int → Millis)) : MotorState :=
  clocks.foldl managerPass st

/-- The output of a motor after its turn in the manager: the value written,
or the old output when nothing is written. -/
def rampNext (current command : Int) (skew : Double) (elapsedTest elapsedStep : Int) : Int :=
  match rampWrite current command skew elapsedTest elapsedStep with
  | some v => v
  | none => current

/-- The target the manager compares the output of motor `i` with:
`Motors[i].RecalculateCommanded(Motors[i].commanded)`. -/
def motorTarget (st : MotorState) (i : Int) : Int :=
  (st.Motors i).RecalculateCommanded (st.Motors i).commanded

/-- The `int` arithmetic of the ramp on output `C` and target `T` stays in
range: both are `int` values and `T - C` is an `int` above `INT_MIN`. -/
abbrev RampDefined (C T : Int) : Prop :=
  (-2147483648 ≤ C ∧ C ≤ 2147483647) ∧ (-2147483648 ≤ T ∧ T ≤ 2147483647) ∧
    (-2147483648 < T - C ∧ T - C ≤ 2147483647)

/-- Two states agree on what the manager reads and writes for index `i`. -/
def AgreeOn (i : Int) (a b : MotorState) : Prop :=
  a.hw (i + 1) = b.hw (i + 1) ∧ a.Motors i = b.Motors i ∧ a.mutexFree i = b.mutexFree i

/-- The function `InitializeMotorManager`: the ten mutexes are created, free,
and every motor gets `DefaultRecalculate`; the other fields of the static
array `Motors` are zero, as C initialises static storage. `hw` gives the
hardware outputs at that moment. The task started by the function is the
loop modelled by `MotorManagerTask`. -/
def InitializeMotorManager (hw : Int → Int) : MotorState :=
  { Motors := fun _ =>
      { channel := 0, commanded := 0, inverted := false, skewPerMsec := Double.finite 0,
        lastUpdate := 0, RecalculateCommanded := DefaultRecalculate }
    mutexFree := fun _ => true
    hw := hw }

/-- One step of the motor manager as seen from outside: a call of one of its
functions, one turn of the loop of `MotorManagerTask`, or other tasks taking
and giving locks, which changes which locks can be taken. -/
inductive MotorOp where
  | set (channel value : Int) (immediate : Bool)
  | configure (channel : Int) (inverted : Bool) (skewPerMsec : Double)
  | recalculate (channel : Int) (func : Int → Int)
  | pass (clock : Int → Millis)
  | contend (mutexFree : Int → Bool)

/-- The state after one step, or the fault the step runs into. -/
def MotorOp.apply (st : MotorState) : MotorOp → Except Fault MotorState
  | MotorOp.set channel value immediate => Except.ok (MotorSet st channel value immediate).2
  | MotorOp.configure channel inverted skewPerMsec =>
    MotorConfigure st channel inverted skewPerMsec
  | MotorOp.recalculate channel func => MotorChangeRecalculateCommanded st channel func
  | MotorOp.pass clock => Except.ok (managerPass st clock)
  | MotorOp.contend mutexFree => Except.ok { st with mutexFree := mutexFree }

/-- The state after a sequence of steps, or the first fault met. -/
def runOps : MotorState → List MotorOp → Except Fault MotorState
  | st, [] => Except.ok st
  | st, op :: rest =>
    match op.apply st with
    | Except.error e => Except.error e
    | Except.ok st1 => runOps st1 rest

/-- The value of a `MotorSet` step is an `int` on which `abs` is defined, that
is, it lies above `INT_MIN`. The other steps carry no condition. -/
def MotorOp.Defined : MotorOp → Prop
  | MotorOp.set _ value _ => -2147483648 < value
  | _ => True

/-- The stored targets of all motors lie in `[-127, 127]`. -/
def CommandedInRange (st : MotorState) : Prop :=
  ∀ j, -127 ≤ (st.Motors j).commanded ∧ (st.Motors j).commanded ≤ 127

/-- The static `MotorManagerTaskHandle` of `SmartMotorLibrary.c`, `0` being
`NULL`, together with the handles passed to `taskDelete` of the platform so
far, in the order of the calls. -/
structure TaskState where
  MotorManagerTaskHandle : Nat
  deleted : List Nat
  deriving DecidableEq, Repr

/-- The function `StopMotorManager`: when the handle is not `NULL` it is
passed to `taskDelete`; the handle itself is not assigned. -/
def StopMotorManager (t : TaskState) : TaskState :=
  if t.MotorManagerTaskHandle ≠ 0 then
    { t with deleted := t.deleted ++ [t.MotorManagerTaskHandle] }
  else t

/-! ## SingleThreadPIDController.c -/

/-- Modelled from the spec: the `PIDController` struct of
`sml/SingleThreadPIDController.h` (the header is not among the sources).
`Execute` and `Call` hold the addresses of the bound functions, `0` being
`NULL`; the integer fields are `int`, `prevTime` is an `unsigned long`. -/
structure PIDController where
  Execute : Nat
  Call : Nat
  Kp : Double
  Ki : Double
  Kd : Double
  MaxIntegral : Int
  MinIntegral : Int
  AcceptableTolerance : Int
  Goal : Int
  integral : Int
  prevError : Int
  prevTime : Int

/-- The function `PIDControllerCreate`: the fields `Goal`, `integral`, `prevError` and
`prevTime` are not assigned by the source; they are whatever `junk` holds. -/
def PIDControllerCreate (junk : PIDController) (Execute Call : Nat) (Kp Ki Kd : Double)
    (MaxIntegral MinIntegral AcceptableTolerance : Int) : PIDController :=
  { junk with
    Execute := Execute, Call := Call, Kp := Kp, Ki := Ki, Kd := Kd,
    MaxIntegral := MaxIntegral, MinIntegral := MinIntegral,
    AcceptableTolerance := AcceptableTolerance }

/-- The function `PIDControllerReset`. -/
def PIDControllerReset (c : PIDController) : PIDController :=
  { c with Goal := 0, integral := 0, prevError := 0 }

/-- The function `PIDControllerSetGoal`. -/
def PIDControllerSetGoal (c : PIDController) (goal : Int) : PIDController :=
  { PIDControllerReset c with Goal := goal }

/-- Lines 99 to 105 of `PIDControllerComputer`: the accumulator after the
error is added, clamped and, inside the tolerance band, cleared. -/
def pidIntegral (c : PIDController) (error : Int) : Int :=
  let i := wrapInt (c.integral + error)
  let i := if i < c.MinIntegral then c.MinIntegral
           else if i > c.MaxIntegral then c.MaxIntegral else i
  if cAbs error < cAbs c.AcceptableTolerance then 0 else i

/-- The divisor `(micros() - prevTime) * 1000000` of line 109, an
`unsigned long`; `now` is the reading of `micros()`. -/
def pidDivisor (c : PIDController) (now : Int) : Int :=
  wrapULong (wrapULong (now - c.prevTime) * 1000000)

/-- Lines 108 and 109 of `PIDControllerComputer`: the `int` difference is
converted to `unsigned long`, divided, and the quotient stored in a `long`.
A zero divisor has no quotient. -/
def pidDerivative (c : PIDController) (error now : Int) : Option Int :=
  if pidDivisor c now = 0 then none
  else some (wrapInt (wrapULong (wrapInt (error - c.prevError)) / pidDivisor c now))

/-- The sum of line 111 in `double` arithmetic,
`(Kp * error) + (Ki * integral) + (Kd * derivative)`: the three integers are
converted to `double`, and each product and each sum is rounded. -/
def pidSum (c : PIDController) (error integral derivative : Int) : Double :=
  Double.add
    (Double.add (Double.mul c.Kp (Double.ofInt error)) (Double.mul c.Ki (Double.ofInt integral)))
    (Double.mul c.Kd (Double.ofInt derivative))

/-- The function `PIDControllerComputer(controller, error)`: the returned output and the
controller after the call, or `none` when the division of line 108 has a zero
divisor. `now` and `later` are the two readings of `micros()`. -/
def PIDControllerComputer (c : PIDController) (error now later : Int) :
    Option (Int × PIDController) :=
  let integral := pidIntegral c error
  match pidDerivative c error now with
  | none => none
  | some derivative =>
    let out := castInt (pidSum c error integral derivative)
    let out := if cAbs error < cAbs c.AcceptableTolerance then 0 else out
    some (out, { c with integral := integral, prevTime := later, prevError := error })

/-- What the environment answers during one `PIDControllerExecuteContinuous`:
the value of `Call()` inside `PIDControllerCompute`, the two readings of
`micros()`, and the value of `Call()` in the tolerance test. -/
structure PIDReading where
  sensor : Int
  now : Int
  later : Int
  sensorAfter : Int

/-- The function `PIDControllerCompute(controller)`, with `sensor` the value of `Call()`. -/
def PIDControllerCompute (c : PIDController) (sensor now later : Int) :
    Option (Int × PIDController) :=
  if c.Call = 0 then none
  else PIDControllerComputer c (wrapInt (c.Goal - sensor)) now later

/-- The function `PIDControllerExecuteContinuous(controller)`: the returned flag, the
controller afterwards and the calls of `Execute` made, as pairs of value and
immediate flag. A call through a `NULL` binding or a zero divisor gives
`none`. -/
def PIDControllerExecuteContinuous (c : PIDController) (r : PIDReading) :
    Option (Bool × PIDController × List (Int × Bool)) :=
  match PIDControllerCompute c r.sensor r.now r.later with
  | none => none
  | some (out, c1) =>
    if c1.Execute = 0 then none
    else
      some (decide (cAbs (wrapInt (c1.Goal - r.sensorAfter)) < c1.AcceptableTolerance),
        c1, [(out, false)])

/-- How a run of `PIDControllerExecuteCompletion` against finitely many
readings stands: `returned` when the loop has ended, `running` when the
readings are used up and the loop has not ended, `failed` when a call made by
the loop failed. `flags` are the values returned by the calls of
`PIDControllerExecuteContinuous` so far, in order. -/
inductive Completion where
  | returned (c : PIDController) (flags : List Bool)
  | running (c : PIDController) (flags : List Bool)
  | failed

/-- Puts the flag of an earlier call in front of the flags of a run. -/
def Completion.after (flag : Bool) : Completion → Completion
  | Completion.returned c flags => Completion.returned c (flag :: flags)
  | Completion.running c flags => Completion.running c (flag :: flags)
  | Completion.failed => Completion.failed

/-- The flags of the calls made in a run. -/
def Completion.flags : Completion → List Bool
  | Completion.returned _ flags => flags
  | Completion.running _ flags => flags
  | Completion.failed => []

/-- Whether the loop has ended. -/
def Completion.hasReturned : Completion → Bool
  | Completion.returned _ _ => true
  | _ => false

/-- The function `PIDControllerExecuteCompletion(controller)`: the loop
`while (PIDControllerExecuteContinuous(controller)) delay(DEFAULT_INTERVAL);`
run against the readings of the environment, one per turn. -/
def PIDControllerExecuteCompletion : PIDController → List PIDReading → Completion
  | c, [] => Completion.running c []
  | c, r :: rs =>
    match PIDControllerExecuteContinuous c r with
    | none => Completion.failed
    | some (flag, c1, _) =>
      if flag = true then Completion.after flag (PIDControllerExecuteCompletion c1 rs)
      else Completion.returned c1 [flag]

/-- A sequence of calls of `PIDControllerComputer`, each given by its error
and its two readings of `micros()`; `none` when one of them fails. -/
def pidRun : PIDController → List (Int × Int × Int) → Option PIDController
  | c, [] => some c
  | c, (error, now, later) :: rest =>
    match PIDControllerComputer c error now later with
    | none => none
    | some (_, c1) => pidRun c1 rest

/-- The derivative as the specification words it: the change of the error per
second, `(error - prevError) * 1000000 / (micros() - prevTime)`, a real
number; `now` is the reading of `micros()`. -/
def specDerivative (c : PIDController) (error now : Int) : ℚ :=
  ((error - c.prevError : Int) : ℚ) * 1000000 / ((now - c.prevTime : Int) : ℚ)

/-- The output outside the dead band as the specification words it:
`Kp * error + Ki * I + Kd * D`, a real number, with its fractional part
dropped. -/
def specPidOutput (Kp Ki Kd : ℚ) (error I D : Int) : Int :=
  truncQ (Kp * (error : ℚ) + Ki * (I : ℚ) + Kd * (D : ℚ))

/-- Setting the goal as the specification words it: the state in which
`Goal` is the new goal, `integral` and `prevError` are zero and every other
field is as before. -/
def specSetGoal (c : PIDController) (g : Int) : PIDController :=
  { Execute := c.Execute, Call := c.Call, Kp := c.Kp, Ki := c.Ki, Kd := c.Kd,
    MaxIntegral := c.MaxIntegral, MinIntegral := c.MinIntegral,
    AcceptableTolerance := c.AcceptableTolerance, Goal := g, integral := 0, prevError := 0,
    prevTime := c.prevTime }

/-! ## Lift.c -/

/-- Modelled from the spec: the motor ports of the lift, constants of
`vulcan/CortexDefinitions.h` (the header is not among the sources). -/
structure LiftPorts where
  MOTOR_LIFT_FRONTLEFT : Int
  MOTOR_LIFT_REARLEFT : Int
  MOTOR_LIFT_MIDDLELEFT : Int
  MOTOR_LIFT_FRONTRIGHT : Int
  MOTOR_LIFT_REARRIGHT : Int
  MOTOR_LIFT_MIDDLERIGHT : Int

/-- One call `MotorSet(channel, set, immediate)`. -/
structure MotorSetCall where
  channel : Int
  set : Int
  immediate : Bool
  deriving DecidableEq, Repr

/-- The function `LiftSetLeft(value, immediate)`: the calls of `MotorSet` it makes, in
order. `botlimLow` and `toplimLow` say whether `digitalRead` of the bottom
and of the top limit switch gives `LOW`. -/
def LiftSetLeft (p : LiftPorts) (botlimLow toplimLow : Bool) (value : Int) (immediate : Bool) :
    List MotorSetCall :=
  if (botlimLow = true ∧ value < 0) ∨ (toplimLow = true ∧ value > 0) then
    [⟨p.MOTOR_LIFT_FRONTLEFT, 0, true⟩, ⟨p.MOTOR_LIFT_REARLEFT, 0, true⟩,
      ⟨p.MOTOR_LIFT_MIDDLELEFT, 0, true⟩]
  else if value < -100 then
    [⟨p.MOTOR_LIFT_FRONTLEFT, -100, immediate⟩, ⟨p.MOTOR_LIFT_REARLEFT, -100, immediate⟩,
      ⟨p.MOTOR_LIFT_MIDDLELEFT, -100, immediate⟩]
  else
    [⟨p.MOTOR_LIFT_FRONTLEFT, value, immediate⟩, ⟨p.MOTOR_LIFT_REARLEFT, value, immediate⟩,
      ⟨p.MOTOR_LIFT_MIDDLELEFT, value, immediate⟩]

/-- The function `LiftSetRight(value, immediate)`: as `LiftSetLeft`, on the right motors. -/
def LiftSetRight (p : LiftPorts) (botlimLow toplimLow : Bool) (value : Int) (immediate : Bool) :
    List MotorSetCall :=
  if (botlimLow = true ∧ value < 0) ∨ (toplimLow = true ∧ value > 0) then
    [⟨p.MOTOR_LIFT_FRONTRIGHT, 0, true⟩, ⟨p.MOTOR_LIFT_REARRIGHT, 0, true⟩,
      ⟨p.MOTOR_LIFT_MIDDLERIGHT, 0, true⟩]
  else if value < -100 then
    [⟨p.MOTOR_LIFT_FRONTRIGHT, -100, immediate⟩, ⟨p.MOTOR_LIFT_REARRIGHT, -100, immediate⟩,
      ⟨p.MOTOR_LIFT_MIDDLERIGHT, -100, immediate⟩]
  else
    [⟨p.MOTOR_LIFT_FRONTRIGHT, value, immediate⟩, ⟨p.MOTOR_LIFT_REARRIGHT, value, immediate⟩,
      ⟨p.MOTOR_LIFT_MIDDLERIGHT, value, immediate⟩]

/-! ## Concrete data -/

/-- A motor as `InitializeMotorManager` leaves it, the other fields zero. -/
def exampleMotor : Motor :=
  { channel := 0, commanded := 0, inverted := false, skewPerMsec := Double.finite 0,
    lastUpdate := 0, RecalculateCommanded := DefaultRecalculate }

/-- Ten such motors, every lock free, every output zero. -/
def exampleState : MotorState :=
  { Motors := fun _ => exampleMotor, mutexFree := fun _ => true, hw := fun _ => 0 }

/-- The same with every port configured as inverted. -/
def invertedState : MotorState :=
  { Motors := fun _ => { exampleMotor with inverted := true }, mutexFree := fun _ => true,
    hw := fun _ => 0 }

/-- Every motor commanded to 100 with a skew of 0.25 per millisecond, the
outputs at zero. -/
def rampState : MotorState :=
  { Motors := fun _ => { exampleMotor with commanded := 100, skewPerMsec := Double.finite (1 / 4) },
    mutexFree := fun _ => true, hw := fun _ => 0 }

/-- The readings of a visit during which the clock stands at `t`. -/
def steadyAt (t : Int) : Millis := { test := t, step := t, stamp := t }

/-- Every motor commanded to 50 with a skew of 1 per millisecond, the outputs
at zero and the last update at time 0. -/
def tickState : MotorState :=
  { Motors := fun _ => { exampleMotor with commanded := 50, skewPerMsec := Double.finite 1 },
    mutexFree := fun _ => true, hw := fun _ => 0 }

/-- Readings of a visit during which the clock moves from 50 to 51 between
line 72 and line 79. -/
def tickBetween : Millis := { test := 50, step := 51, stamp := 51 }

/-- The double nearest to 1/51, `5651576002974740 * 2^-58`; it lies below
1/51. -/
def nearestTo51st : ℚ := 5651576002974740 / 2 ^ 58

/-- Port numbers for the six lift motors. -/
def examplePorts : LiftPorts :=
  { MOTOR_LIFT_FRONTLEFT := 2, MOTOR_LIFT_REARLEFT := 3, MOTOR_LIFT_MIDDLELEFT := 4,
    MOTOR_LIFT_FRONTRIGHT := 7, MOTOR_LIFT_REARRIGHT := 8, MOTOR_LIFT_MIDDLERIGHT := 9 }

/-- The master controller of `LiftInitialize` (gains 1.5, 0.01 and 0), its
loop state zero. -/
def examplePID : PIDController :=
  { Execute := 1, Call := 2, Kp := Double.ofRat (3 / 2), Ki := Double.ofRat (1 / 100),
    Kd := Double.ofRat 0, MaxIntegral := 300, MinIntegral := -200, AcceptableTolerance := 2,
    Goal := 0, integral := 0, prevError := 0, prevTime := 0 }

/-- A controller whose integral bounds lie above zero. -/
def positiveMinPID : PIDController :=
  { examplePID with MinIntegral := 1, MaxIntegral := 10, AcceptableTolerance := 5, integral := 5 }

/-- The example controller with its goal set to 100. -/
def goalPID : PIDController := PIDControllerSetGoal examplePID 100

/-- Readings with the sensor at 0 at time `t`. -/
def readingAtZero (t : Int) : PIDReading :=
  { sensor := 0, now := t, later := t + 1, sensorAfter := 0 }

/-- Readings with the sensor at 100 at time `t`. -/
def readingAtGoal (t : Int) : PIDReading :=
  { sensor := 100, now := t, later := t + 1, sensorAfter := 100 }

/-- A controller with all three gains zero. -/
def zeroGainPID : PIDController :=
  { examplePID with Kp := Double.finite 0, Ki := Double.finite 0, Kd := Double.finite 0 }

/-- A controller whose only gain is `Kp`, the double nearest to 1/51. -/
def roundingPID : PIDController :=
  { examplePID with
    Kp := Double.finite nearestTo51st, Ki := Double.finite 0, Kd := Double.finite 0 }

/-- A controller whose only gain is `Kp = -2^40`. -/
def hugeGainPID : PIDController :=
  { examplePID with
    Kp := Double.finite (-1099511627776), Ki := Double.finite 0, Kd := Double.finite 0 }

/-- A controller whose only gain is `Kp = 1`. -/
def unitGainPID : PIDController :=
  { examplePID with Kp := Double.finite 1, Ki := Double.finite 0, Kd := Double.finite 0 }

/-- The task state after `InitializeMotorManager` has created the manager
task with handle 5; nothing has been deleted. -/
def runningTask : TaskState := { MotorManagerTaskHandle := 5, deleted := [] }

/-- A state in which every lock is held by another task and the outputs
differ from the targets. -/
def lockedState : MotorState := { rampState with mutexFree := fun _ => false }

/-- A state whose outputs already equal the targets. -/
def settledState : MotorState := { rampState with hw := fun _ => 100 }

/-! ## Machine integers: lemmas -/

theorem wrapInt_of_range (x : Int) (h1 : -2147483648 ≤ x) (h2 : x < 2147483648) :
    wrapInt x = x := by
  unfold wrapInt; omega

theorem cAbs_of_defined (v : Int) (hv : -2147483648 < v) : cAbs v = |v| := by
  unfold cAbs
  split
  · rename_i h
    rw [abs_of_neg h]
    by_cases h2 : -v < 2147483648
    · exact wrapInt_of_range _ (by omega) h2
    · omega
  · rename_i h
    rw [abs_of_nonneg (by omega)]

theorem cAbs_lt_of_abs_lt (e tol : Int) (h : |e| < tol) : cAbs e < cAbs tol := by
  have h1 := abs_lt.mp h
  unfold cAbs wrapInt
  split_ifs <;> omega

theorem truncQ_intCast (n : Int) : truncQ (n : ℚ) = n := by
  unfold truncQ
  split_ifs <;> simp

theorem truncQ_neg (q : ℚ) : truncQ (-q) = -truncQ q := by
  unfold truncQ
  rcases lt_trichotomy q 0 with h | h | h
  · have h1 : (0 : ℚ) ≤ -q := by linarith
    have h2 : ¬ (0 : ℚ) ≤ q := by linarith
    rw [if_pos h1, if_neg h2, Int.floor_neg]
  · subst h; simp
  · have h1 : ¬ (0 : ℚ) ≤ -q := by linarith
    have h2 : (0 : ℚ) ≤ q := by linarith
    rw [if_neg h1, if_pos h2, Int.ceil_neg]

theorem truncQ_bounds (q : ℚ) (n : Int) (h0 : 0 ≤ q) (hn : q ≤ (n : ℚ)) :
    0 ≤ truncQ q ∧ truncQ q ≤ n := by
  unfold truncQ
  rw [if_pos h0]
  refine ⟨Int.floor_nonneg.mpr h0, ?_⟩
  have : ((⌊q⌋ : Int) : ℚ) ≤ (n : ℚ) := le_trans (Int.floor_le q) hn
  exact_mod_cast this


/-- A rational in `[0, 1)` is cast to the `int` zero. -/
theorem truncQ_small (q : ℚ) (h0 : 0 ≤ q) (h1 : q < 1) : truncQ q = 0 := by
  unfold truncQ
  rw [if_pos h0]
  exact Int.floor_eq_zero_iff.mpr ⟨h0, h1⟩

/-! ## Doubles: lemmas -/

theorem roundHalfEven_intCast (n : Int) : roundHalfEven (n : ℚ) = n := by
  unfold roundHalfEven
  simp

theorem roundHalfEven_mem (q : ℚ) :
    (roundHalfEven q = ⌊q⌋) ∨ (roundHalfEven q = ⌊q⌋ + 1 ∧ (1 / 2 : ℚ) ≤ q - (⌊q⌋ : ℚ)) := by
  unfold roundHalfEven
  split_ifs with h1 h2 h3
  · left; rfl
  · right; exact ⟨rfl, le_of_lt h2⟩
  · left; rfl
  · right; exact ⟨rfl, not_lt.mp h1⟩

theorem roundHalfEven_nonneg (q : ℚ) (h : 0 ≤ q) : 0 ≤ roundHalfEven q := by
  have hf : 0 ≤ ⌊q⌋ := Int.floor_nonneg.mpr h
  rcases roundHalfEven_mem q with h1 | ⟨h1, _⟩ <;> omega

theorem roundHalfEven_neg (q : ℚ) : roundHalfEven (-q) = -roundHalfEven q := by
  by_cases hq : (⌊q⌋ : ℚ) = q
  · have h1 : roundHalfEven q = ⌊q⌋ := by rw [← hq, roundHalfEven_intCast, hq]
    have h2 : -q = ((-⌊q⌋ : Int) : ℚ) := by push_cast; rw [hq]
    rw [h1, h2, roundHalfEven_intCast]
  · have hlt : (⌊q⌋ : ℚ) < q := lt_of_le_of_ne (Int.floor_le q) hq
    have hfl : ⌊-q⌋ = -⌊q⌋ - 1 := by
      rw [Int.floor_eq_iff]
      have := Int.lt_floor_add_one q
      push_cast
      constructor <;> linarith
    unfold roundHalfEven
    rw [hfl]
    push_cast
    have hfrac : -q - (-(⌊q⌋ : ℚ) - 1) = 1 - (q - (⌊q⌋ : ℚ)) := by ring
    rw [hfrac]
    have hpar : (-⌊q⌋ - 1) % 2 = 0 ↔ ¬ (⌊q⌋ % 2 = 0) := by omega
    rcases lt_trichotomy (q - (⌊q⌋ : ℚ)) (1 / 2) with h | h | h
    · have a1 : ¬ (1 - (q - (⌊q⌋ : ℚ)) < 1 / 2) := by linarith
      have a2 : (1 / 2 : ℚ) < 1 - (q - (⌊q⌋ : ℚ)) := by linarith
      rw [if_neg a1, if_pos a2, if_pos h]
      ring
    · have a1 : ¬ (1 - (q - (⌊q⌋ : ℚ)) < 1 / 2) := by linarith
      have a2 : ¬ ((1 / 2 : ℚ) < 1 - (q - (⌊q⌋ : ℚ))) := by linarith
      have b1 : ¬ (q - (⌊q⌋ : ℚ) < 1 / 2) := by linarith
      have b2 : ¬ ((1 / 2 : ℚ) < q - (⌊q⌋ : ℚ)) := by linarith
      rw [if_neg a1, if_neg a2, if_neg b1, if_neg b2]
      by_cases hp : ⌊q⌋ % 2 = 0
      · rw [if_neg (by omega), if_pos hp]; ring
      · rw [if_pos (by omega), if_neg hp]; ring
    · have a1 : 1 - (q - (⌊q⌋ : ℚ)) < 1 / 2 := by linarith
      have b1 : ¬ (q - (⌊q⌋ : ℚ) < 1 / 2) := by linarith
      rw [if_pos a1, if_neg b1, if_pos h]
      ring

theorem roundHalfEven_abs_le (q : ℚ) (N : Int) (h : |q| < (N : ℚ)) : |roundHalfEven q| ≤ N := by
  have h1 := abs_lt.mp h
  have hf1 : ⌊q⌋ < N := Int.floor_lt.mpr h1.2
  have hf2 : -N ≤ ⌊q⌋ := by
    apply Int.le_floor.mpr
    push_cast
    linarith
  rw [abs_le]
  rcases roundHalfEven_mem q with h2 | ⟨h2, _⟩ <;> omega

theorem ulpExponent_ge (q : ℚ) : -1074 ≤ ulpExponent q := by
  unfold ulpExponent
  have := le_max_right (Int.log 2 |q|) (-1022)
  omega

theorem abs_lt_two_zpow_ulp (q : ℚ) : |q| < 2 ^ (ulpExponent q + 53) := by
  have h := Int.lt_zpow_succ_log_self (b := 2) (by norm_num) |q|
  have hle : Int.log 2 |q| + 1 ≤ ulpExponent q + 53 := by
    unfold ulpExponent
    have := le_max_left (Int.log 2 |q|) (-1022)
    omega
  calc |q| < (2 : ℚ) ^ (Int.log 2 |q| + 1) := by exact_mod_cast h
    _ ≤ 2 ^ (ulpExponent q + 53) := zpow_le_zpow_right₀ (by norm_num) hle

/-- A number with at most 53 significant bits and an exponent in the range of the format is left
as it is. -/
theorem binary64_representable (m k : Int) (hm : |m| < 2 ^ 53) (hk : -1074 ≤ k) :
    binary64 ((m : ℚ) * 2 ^ k) = (m : ℚ) * 2 ^ k := by
  by_cases hm0 : m = 0
  · subst hm0
    simp [binary64, roundHalfEven]
  set q : ℚ := (m : ℚ) * 2 ^ k with hq
  have hqpos : 0 < |q| := by
    rw [abs_pos, hq]
    exact mul_ne_zero (by exact_mod_cast hm0) (zpow_ne_zero _ (by norm_num))
  have hlt : |q| < 2 ^ (53 + k) := by
    rw [hq, abs_mul, abs_of_pos (zpow_pos (by norm_num : (0 : ℚ) < 2) k), zpow_add₀ (by norm_num)]
    apply mul_lt_mul_of_pos_right _ (zpow_pos (by norm_num) k)
    exact_mod_cast hm
  have hlog : Int.log 2 |q| < 53 + k := by
    have := (Int.lt_zpow_iff_log_lt (b := 2) (by norm_num) hqpos).mp (by exact_mod_cast hlt)
    exact this
  have hu : ulpExponent q ≤ k := by
    unfold ulpExponent
    rcases max_cases (Int.log 2 |q|) (-1022) with ⟨h, _⟩ | ⟨h, _⟩ <;> omega
  obtain ⟨j, hj⟩ : ∃ j : ℕ, k - ulpExponent q = (j : Int) :=
    Int.eq_ofNat_of_zero_le (by omega)
  have hdiv : q / 2 ^ ulpExponent q = ((m * 2 ^ j : Int) : ℚ) := by
    rw [hq, mul_div_assoc, ← zpow_sub₀ (by norm_num : (2 : ℚ) ≠ 0), hj]
    push_cast
    rw [zpow_natCast]
  unfold binary64
  rw [hdiv, roundHalfEven_intCast]
  push_cast
  rw [mul_assoc, ← zpow_natCast, ← zpow_add₀ (by norm_num : (2 : ℚ) ≠ 0), ← hj]
  congr 2
  ring

theorem ulpExponent_neg (q : ℚ) : ulpExponent (-q) = ulpExponent q := by
  unfold ulpExponent; rw [abs_neg]

theorem binary64_neg (q : ℚ) : binary64 (-q) = -binary64 q := by
  unfold binary64
  rw [ulpExponent_neg, neg_div, roundHalfEven_neg]
  push_cast
  ring

theorem binary64_zero : binary64 0 = 0 := by
  simp [binary64, roundHalfEven]

theorem binary64_nonneg (q : ℚ) (h : 0 ≤ q) : 0 ≤ binary64 q := by
  unfold binary64
  have hp : (0 : ℚ) < 2 ^ ulpExponent q := zpow_pos (by norm_num) _
  have h1 : 0 ≤ roundHalfEven (q / 2 ^ ulpExponent q) :=
    roundHalfEven_nonneg _ (div_nonneg h (le_of_lt hp))
  exact mul_nonneg (by exact_mod_cast h1) (le_of_lt hp)

theorem binary64_idem (q : ℚ) : binary64 (binary64 q) = binary64 q := by
  have hp : (0 : ℚ) < 2 ^ ulpExponent q := zpow_pos (by norm_num) _
  have hb : |q / 2 ^ ulpExponent q| < ((2 ^ 53 : Int) : ℚ) := by
    rw [abs_div, abs_of_pos hp, div_lt_iff₀ hp]
    have := abs_lt_two_zpow_ulp q
    rw [zpow_add₀ (by norm_num : (2 : ℚ) ≠ 0)] at this
    push_cast
    rw [mul_comm]
    exact_mod_cast this
  have hm := roundHalfEven_abs_le _ _ hb
  have hk := ulpExponent_ge q
  unfold binary64
  set m := roundHalfEven (q / 2 ^ ulpExponent q) with hmdef
  set k := ulpExponent q with hkdef
  by_cases hlt : |m| < 2 ^ 53
  · exact binary64_representable m k hlt hk
  · have hcase : m = 2 ^ 53 ∨ m = -2 ^ 53 := by
      rcases abs_cases m with ⟨h, _⟩ | ⟨h, _⟩ <;> omega
    have h2 : ((2 : ℚ) ^ (k + 1)) = 2 * 2 ^ k := by
      rw [zpow_add₀ (by norm_num : (2 : ℚ) ≠ 0), zpow_one, mul_comm]
    rcases hcase with h | h
    · have e : (m : ℚ) * 2 ^ k = ((2 ^ 52 : Int) : ℚ) * 2 ^ (k + 1) := by
        rw [h, h2]; push_cast; ring
      rw [e]
      exact binary64_representable (2 ^ 52) (k + 1) (by norm_num) (by omega)
    · have e : (m : ℚ) * 2 ^ k = ((-2 ^ 52 : Int) : ℚ) * 2 ^ (k + 1) := by
        rw [h, h2]; push_cast; ring
      rw [e]
      exact binary64_representable (-2 ^ 52) (k + 1) (by norm_num) (by omega)


theorem ulpExponent_of_bounds (q : ℚ) (e : Int) (h1 : 2 ^ e ≤ |q|) (h2 : |q| < 2 ^ (e + 1)) :
    ulpExponent q = max e (-1022) - 52 := by
  have hpos : 0 < |q| := lt_of_lt_of_le (zpow_pos (by norm_num) e) h1
  have a : e ≤ Int.log 2 |q| :=
    (Int.zpow_le_iff_le_log (b := 2) (by norm_num) hpos).mp (by exact_mod_cast h1)
  have b : Int.log 2 |q| < e + 1 :=
    (Int.lt_zpow_iff_log_lt (b := 2) (by norm_num) hpos).mp (by exact_mod_cast h2)
  have : Int.log 2 |q| = e := by omega
  unfold ulpExponent
  rw [this]

theorem binary64_of_bounds (q : ℚ) (e : Int) (h1 : 2 ^ e ≤ |q|) (h2 : |q| < 2 ^ (e + 1)) :
    binary64 q =
      (roundHalfEven (q / 2 ^ (max e (-1022) - 52)) : ℚ) * 2 ^ (max e (-1022) - 52) := by
  unfold binary64
  rw [ulpExponent_of_bounds q e h1 h2]

theorem Double.ofRat_of_lt (q : ℚ) (h : |binary64 q| < 2 ^ 1024) :
    Double.ofRat q = Double.finite (binary64 q) := by
  have h1 := abs_lt.mp h
  unfold Double.ofRat
  rw [if_neg (by linarith), if_neg (by linarith)]

theorem Double.ofRat_representable (m k : Int) (hm : |m| < 2 ^ 53) (hk : -1074 ≤ k)
    (hlt : |(m : ℚ) * 2 ^ k| < 2 ^ 1024) :
    Double.ofRat ((m : ℚ) * 2 ^ k) = Double.finite ((m : ℚ) * 2 ^ k) := by
  rw [Double.ofRat_of_lt _ (by rw [binary64_representable m k hm hk]; exact hlt),
    binary64_representable m k hm hk]

theorem binary64_intCast (n : Int) (h : |n| < 2 ^ 53) : binary64 (n : ℚ) = (n : ℚ) := by
  have := binary64_representable n 0 h (by norm_num)
  simpa using this

/-- The comparison of a finite value with a rounded result, whether or not
the result is finite. -/
theorem Double.lt_finite_ofRat (a x : ℚ) (h1 : -2 ^ 1024 < a) (h2 : a < 2 ^ 1024) :
    Double.lt (Double.finite a) (Double.ofRat x) = decide (a < binary64 x) := by
  unfold Double.ofRat
  split_ifs with c1 c2
  · have : a < binary64 x := lt_of_lt_of_le h2 c1
    simp [Double.lt, this]
  · have : ¬ a < binary64 x := not_lt.mpr (le_of_lt (lt_of_le_of_lt c2 h1))
    simp [Double.lt, this]
  · simp [Double.lt]

theorem castInt_finite_of_range (q : ℚ) (h1 : -2147483648 ≤ truncQ q)
    (h2 : truncQ q ≤ 2147483647) : castInt (Double.finite q) = truncQ q := by
  unfold castInt
  simp only
  rw [if_pos ⟨h1, h2⟩]

/-- The cast gives an `int` whatever the double. -/
theorem castInt_range (d : Double) : -2147483648 ≤ castInt d ∧ castInt d ≤ 2147483647 := by
  cases d with
  | finite q =>
    unfold castInt
    simp only
    split_ifs with h
    · exact h
    · omega
  | posInf => simp [castInt]
  | negInf => simp [castInt]
  | nan => simp [castInt]

theorem truncQ_nonneg_lt (q : ℚ) (h0 : 0 ≤ q) (N : Int) (h : truncQ q ≤ N) : q < (N : ℚ) + 1 := by
  unfold truncQ at h
  rw [if_pos h0] at h
  have h1 := Int.lt_floor_add_one q
  have h2 : ((⌊q⌋ : Int) : ℚ) ≤ (N : ℚ) := by exact_mod_cast h
  linarith

/-- The step of line 79: a rounded non-negative product, multiplied by `1`
or `-1` and cast to `int`, is the truncated product with that sign. -/
theorem castInt_signed (x : ℚ) (sg : Int) (hsg : sg = 1 ∨ sg = -1) (h0 : 0 ≤ binary64 x)
    (h1 : truncQ (binary64 x) ≤ 2147483647) :
    castInt (Double.mul (Double.ofRat x) (Double.ofInt sg)) = sg * truncQ (binary64 x) := by
  have hlt := truncQ_nonneg_lt _ h0 _ h1
  have hbig : (2147483647 : ℚ) + 1 < 2 ^ 1024 := by norm_num
  have hfin : Double.ofRat x = Double.finite (binary64 x) :=
    Double.ofRat_of_lt x (by rw [abs_of_nonneg h0]; push_cast at hlt; linarith)
  have ht0 : 0 ≤ truncQ (binary64 x) := by
    unfold truncQ; rw [if_pos h0]; exact Int.floor_nonneg.mpr h0
  rw [hfin]
  rcases hsg with h | h
  · subst h
    have e : Double.mul (Double.finite (binary64 x)) (Double.ofInt 1) =
        Double.finite (binary64 x) := by
      simp only [Double.mul, Double.ofInt, Int.cast_one, mul_one]
      rw [Double.ofRat_of_lt _ (by
        rw [binary64_idem, abs_of_nonneg h0]; push_cast at hlt; linarith), binary64_idem]
    rw [e, castInt_finite_of_range _ (by omega) h1, one_mul]
  · subst h
    have e : Double.mul (Double.finite (binary64 x)) (Double.ofInt (-1)) =
        Double.finite (-binary64 x) := by
      simp only [Double.mul, Double.ofInt, Int.cast_neg, Int.cast_one, mul_neg, mul_one]
      rw [Double.ofRat_of_lt _ (by
        rw [binary64_neg, binary64_idem, abs_neg, abs_of_nonneg h0]
        push_cast at hlt; linarith), binary64_neg, binary64_idem]
    rw [e, castInt_finite_of_range _ (by rw [truncQ_neg]; omega) (by rw [truncQ_neg]; omega),
      truncQ_neg]
    ring

/-! ## MotorSet and MotorGet -/

/-- The range check of `MotorSet` on a value whose magnitude is an `int`. -/
theorem clampSet_eq (v : Int) (hv : -2147483648 < v) :
    (if cAbs v > 127 then wrapInt (127 * Int.tdiv v (cAbs v)) else v) =
      (if v > 127 then 127 else if v < -127 then -127 else v) := by
  rw [cAbs_of_defined v hv]
  rcases le_or_lt 0 v with h | h
  · rw [abs_of_nonneg h]
    by_cases h1 : v > 127
    · have : Int.tdiv v v = 1 := Int.tdiv_self (by omega)
      simp [h1, this, wrapInt]
    · have h2 : ¬ v < -127 := by omega
      simp [h1, h2]
  · rw [abs_of_neg h]
    by_cases h1 : v < -127
    · have : Int.tdiv v (-v) = -1 := by
        rw [Int.tdiv_neg, Int.tdiv_self (by omega)]
      have h3 : -v > 127 := by omega
      have h4 : ¬ v > 127 := by omega
      simp [h1, this, wrapInt, h3, h4]
    · have h3 : ¬ (-v > 127) := by omega
      have h4 : ¬ v > 127 := by omega
      simp [h1, h3, h4]

theorem wrapInt_mul_sign (s : Int) (b : Bool) (h1 : -127 ≤ s) (h2 : s ≤ 127) :
    wrapInt (s * (if b = true then 1 else -1)) = s * (if b = true then 1 else -1) := by
  cases b
  · simp only [Bool.false_eq_true, if_false]
    exact wrapInt_of_range _ (by omega) (by omega)
  · simp only [if_true]
    exact wrapInt_of_range _ (by omega) (by omega)

/-- The flag returned by `MotorSet`. -/
theorem MotorSet_fst (st : MotorState) (channel v : Int) (immediate : Bool) :
    (MotorSet st channel v immediate).1 =
      decide (¬ (channel > 10 ∨ channel < 1) ∧ st.mutexFree (channel - 1) = true) := by
  unfold MotorSet
  by_cases h : channel > 10 ∨ channel < 1
  · simp [h]
  · by_cases hf : st.mutexFree (channel - 1) = false
    · simp [h, hf]
    · cases immediate <;> simp [h, hf]

/-- The state left by a `MotorSet` that takes the lock. -/
theorem MotorSet_snd (st : MotorState) (channel v : Int) (immediate : Bool)
    (hch : 1 ≤ channel ∧ channel ≤ 10) (hfree : st.mutexFree (channel - 1) = true) :
    (MotorSet st channel v immediate).2 =
      { Motors := Function.update st.Motors (channel - 1)
          { st.Motors (channel - 1) with
            commanded := wrapInt ((if cAbs v > 127 then wrapInt (127 * Int.tdiv v (cAbs v)) else v) *
              (if (st.Motors (channel - 1)).inverted = true then 1 else -1)) }
        mutexFree := st.mutexFree
        hw := if immediate = true then
            Function.update st.hw channel
              (wrapInt ((if cAbs v > 127 then wrapInt (127 * Int.tdiv v (cAbs v)) else v) *
                (if (st.Motors (channel - 1)).inverted = true then 1 else -1)))
          else st.hw } := by
  unfold MotorSet
  have h : ¬ (channel > 10 ∨ channel < 1) := by omega
  cases immediate <;> simp [h, hfree]

/-- What `MotorSet` with `immediate` set hands to the hardware: the value
itself on a port configured as inverted, its negation otherwise. -/
theorem MotorSet_immediate_hw (st : MotorState) (channel v : Int)
    (hch : 1 ≤ channel ∧ channel ≤ 10) (hfree : st.mutexFree (channel - 1) = true)
    (hv : -127 ≤ v ∧ v ≤ 127) :
    (MotorSet st channel v true).2.hw channel =
      if (st.Motors (channel - 1)).inverted = true then v else -v := by
  rw [MotorSet_snd st channel v true hch hfree, clampSet_eq v (by omega)]
  have h1 : ¬ v > 127 := by omega
  have h2 : ¬ v < -127 := by omega
  simp only [h1, h2, if_false, if_true, Function.update_same]
  rw [wrapInt_mul_sign v _ hv.1 hv.2]
  cases (st.Motors (channel - 1)).inverted <;> simp

/-- Outside `0..11` both configuration functions return at the guard and
leave the state as it is. -/
theorem MotorConfigure_noop_outside_guard (st : MotorState) (channel : Int) (inverted : Bool)
    (skew : Double) (func : Int → Int) (hch : channel < 0 ∨ 11 < channel) :
    MotorConfigure st channel inverted skew = Except.ok st ∧
      MotorChangeRecalculateCommanded st channel func = Except.ok st := by
  simp [MotorConfigure, MotorChangeRecalculateCommanded, hch]

theorem Double.ofRat_eq_finite (q p : ℚ) (h : binary64 q = p) (hlt : |p| < 2 ^ 1024) :
    Double.ofRat q = Double.finite p := by
  rw [Double.ofRat_of_lt q (by rw [h]; exact hlt), h]

/-- The product of two finite doubles when the rounded exact product is
known. -/
theorem Double.mul_finite (a b p : ℚ) (h : binary64 (a * b) = p) (hlt : |p| < 2 ^ 1024) :
    Double.mul (Double.finite a) (Double.finite b) = Double.finite p :=
  Double.ofRat_eq_finite (a * b) p h hlt

/-- The sum of two finite doubles when the rounded exact sum is known. -/
theorem Double.add_finite (a b p : ℚ) (h : binary64 (a + b) = p) (hlt : |p| < 2 ^ 1024) :
    Double.add (Double.finite a) (Double.finite b) = Double.finite p :=
  Double.ofRat_eq_finite (a + b) p h hlt

theorem cAbs_le_abs (x : Int) : cAbs x ≤ |x| := by
  unfold cAbs wrapInt
  split_ifs with h
  · rw [abs_of_neg h]; omega
  · rw [abs_of_nonneg (by omega)]

/-! ## The ramp of MotorManagerTask -/

theorem elapsedMsec_nonneg (now last : Int) : 0 ≤ elapsedMsec now last := by
  unfold elapsedMsec wrapULong; omega

theorem abs_cast_bounds (C T : Int) (hdef : RampDefined C T) :
    -(2 : ℚ) ^ 1024 < ((|T - C| : Int) : ℚ) ∧ ((|T - C| : Int) : ℚ) < 2 ^ 1024 := by
  have h0 : (0 : ℚ) ≤ ((|T - C| : Int) : ℚ) := by exact_mod_cast abs_nonneg (T - C)
  have h1 : |T - C| ≤ 2147483647 := by
    rw [abs_le]; unfold RampDefined at hdef; omega
  have h2 : ((|T - C| : Int) : ℚ) ≤ 2147483647 := by exact_mod_cast h1
  have hbig : (2147483647 : ℚ) < 2 ^ 1024 := by norm_num
  have hneg : -(2 : ℚ) ^ 1024 < 0 := by norm_num
  exact ⟨lt_of_lt_of_le hneg h0, lt_of_le_of_lt h2 hbig⟩

/-- The write of the manager for a finite skew, the comparison of line 72
and the step of line 79 each with the product at its own reading. -/
theorem rampWrite_of_finite (C T : Int) (s : ℚ) (d1 d2 : Int) (hCT : C ≠ T)
    (hdef : RampDefined C T) :
    rampWrite C T (Double.finite s) d1 d2 =
      if ((|T - C| : Int) : ℚ) < binary64 (s * (d1 : ℚ)) then some T
      else some (wrapInt (C + castInt (Double.mul (Double.ofRat (s * (d2 : ℚ)))
        (Double.ofInt (if T - C > 0 then 1 else -1))))) := by
  have hw : wrapInt (T - C) = T - C := wrapInt_of_range _ (by omega) (by omega)
  have ha : cAbs (T - C) = |T - C| := cAbs_of_defined _ hdef.2.2.1
  obtain ⟨b1, b2⟩ := abs_cast_bounds C T hdef
  unfold rampWrite
  rw [if_pos hCT, hw, ha]
  have hm1 : Double.mul (Double.finite s) (Double.ofInt d1) = Double.ofRat (s * (d1 : ℚ)) := rfl
  have hm2 : Double.mul (Double.finite s) (Double.ofInt d2) = Double.ofRat (s * (d2 : ℚ)) := rfl
  rw [hm1, hm2]
  have hlt : Double.lt (Double.ofInt |T - C|) (Double.ofRat (s * (d1 : ℚ))) =
      decide (((|T - C| : Int) : ℚ) < binary64 (s * (d1 : ℚ))) :=
    Double.lt_finite_ofRat _ _ b1 b2
  rw [hlt]
  by_cases h : ((|T - C| : Int) : ℚ) < binary64 (s * (d1 : ℚ))
  · simp [h]
  · simp [h]

/-- The output after the turn of a motor with a finite skew whose output
differs from its target. -/
theorem rampNext_of_finite (C T : Int) (s : ℚ) (d1 d2 : Int) (hCT : C ≠ T)
    (hdef : RampDefined C T) :
    rampNext C T (Double.finite s) d1 d2 =
      if ((|T - C| : Int) : ℚ) < binary64 (s * (d1 : ℚ)) then T
      else wrapInt (C + castInt (Double.mul (Double.ofRat (s * (d2 : ℚ)))
        (Double.ofInt (if T - C > 0 then 1 else -1)))) := by
  unfold rampNext
  rw [rampWrite_of_finite C T s d1 d2 hCT hdef]
  split_ifs <;> rfl

/-- The write of the manager in closed form when both products are taken at
the same reading of the clock. -/
theorem rampNext_eq_of_nonneg (C T : Int) (s : ℚ) (d : Int)
    (hq : (0 : ℚ) ≤ binary64 (s * (d : ℚ))) (hdef : RampDefined C T) :
    rampNext C T (Double.finite s) d d =
      C + truncQ (min (|((T - C : Int) : ℚ)|) (binary64 (s * (d : ℚ))) *
        ((Int.sign (T - C) : Int) : ℚ)) ∧
    ((C ≤ rampNext C T (Double.finite s) d d ∧ rampNext C T (Double.finite s) d d ≤ T) ∨
      (T ≤ rampNext C T (Double.finite s) d d ∧ rampNext C T (Double.finite s) d d ≤ C)) := by
  unfold rampNext
  by_cases hCT : C = T
  · subst hCT
    have h0 : truncQ 0 = 0 := by simpa using truncQ_intCast 0
    simp [rampWrite, h0]
  · rw [rampWrite_of_finite C T s d d hCT hdef]
    have hcast : ((|T - C| : Int) : ℚ) = |((T - C : Int) : ℚ)| := by push_cast; rfl
    have habsle : |T - C| ≤ 2147483647 := by
      rw [abs_le]; unfold RampDefined at hdef; omega
    by_cases hlt : ((|T - C| : Int) : ℚ) < binary64 (s * (d : ℚ))
    · rw [if_pos hlt]
      simp only
      rw [min_eq_left (by rw [← hcast]; exact le_of_lt hlt)]
      have hsgn : |((T - C : Int) : ℚ)| * ((Int.sign (T - C) : Int) : ℚ) =
          ((T - C : Int) : ℚ) := by
        rw [← hcast, ← Int.cast_mul]
        congr 1
        rw [mul_comm]; exact Int.sign_mul_abs (T - C)
      rw [hsgn, truncQ_intCast]
      refine ⟨by ring, ?_⟩
      omega
    · rw [if_neg hlt]
      simp only
      have hle : binary64 (s * (d : ℚ)) ≤ ((|T - C| : Int) : ℚ) := not_lt.mp hlt
      rw [min_eq_right (by rw [← hcast]; exact hle)]
      obtain ⟨t0, t1⟩ := truncQ_bounds (binary64 (s * (d : ℚ))) (|T - C|) hq hle
      rcases lt_or_gt_of_ne hCT with h | h
      · -- C < T
        have hpos : T - C > 0 := by omega
        have habs : |T - C| = T - C := abs_of_pos hpos
        have hsg : Int.sign (T - C) = 1 := Int.sign_eq_one_of_pos hpos
        rw [if_pos hpos, hsg, castInt_signed _ 1 (Or.inl rfl) hq (by omega)]
        simp only [Int.cast_one, mul_one, one_mul]
        rw [wrapInt_of_range _ (by omega) (by omega)]
        refine ⟨rfl, ?_⟩
        omega
      · -- T < C
        have hneg : T - C < 0 := by omega
        have hnpos : ¬ T - C > 0 := by omega
        have habs : |T - C| = -(T - C) := abs_of_neg hneg
        have hsg : Int.sign (T - C) = -1 := Int.sign_eq_neg_one_of_neg hneg
        rw [if_neg hnpos, hsg, castInt_signed _ (-1) (Or.inr rfl) hq (by omega)]
        simp only [Int.cast_neg, Int.cast_one, mul_neg, mul_one]
        rw [truncQ_neg, wrapInt_of_range _ (by omega) (by omega)]
        refine ⟨by ring, ?_⟩
        omega

/-- The write of the manager in closed form, for a skew that is not negative,
when both products are taken at the same reading of the clock. -/
theorem rampNext_eq (C T : Int) (s : ℚ) (d : Int) (hs : 0 ≤ s) (hd : 0 ≤ d)
    (hdef : RampDefined C T) :
    rampNext C T (Double.finite s) d d =
      C + truncQ (min (|((T - C : Int) : ℚ)|) (binary64 (s * (d : ℚ))) *
        ((Int.sign (T - C) : Int) : ℚ)) ∧
    ((C ≤ rampNext C T (Double.finite s) d d ∧ rampNext C T (Double.finite s) d d ≤ T) ∨
      (T ≤ rampNext C T (Double.finite s) d d ∧ rampNext C T (Double.finite s) d d ≤ C)) :=
  rampNext_eq_of_nonneg C T s d (binary64_nonneg _ (mul_nonneg hs (by exact_mod_cast hd))) hdef

theorem AgreeOn.refl (i : Int) (a : MotorState) : AgreeOn i a a := ⟨rfl, rfl, rfl⟩

theorem AgreeOn.trans {i : Int} {a b c : MotorState} (h1 : AgreeOn i a b) (h2 : AgreeOn i b c) :
    AgreeOn i a c :=
  ⟨h1.1.trans h2.1, h1.2.1.trans h2.2.1, h1.2.2.trans h2.2.2⟩

theorem managerVisit_locked (st : MotorState) (t : Millis) (i : Int)
    (h : st.mutexFree i = false) : managerVisit st t i = st := by
  unfold managerVisit; simp [h]

theorem managerVisit_free (st : MotorState) (t : Millis) (i : Int)
    (h : st.mutexFree i = true) :
    managerVisit st t i =
      { Motors := Function.update st.Motors i { st.Motors i with lastUpdate := t.stamp }
        mutexFree := st.mutexFree
        hw := Function.update st.hw (i + 1)
          (rampNext (st.hw (i + 1)) (motorTarget st i) (st.Motors i).skewPerMsec
            (elapsedMsec t.test (st.Motors i).lastUpdate)
            (elapsedMsec t.step (st.Motors i).lastUpdate)) } := by
  unfold managerVisit rampNext motorTarget
  simp only [h, Bool.true_eq_false, if_false]
  cases hr : rampWrite (st.hw (i + 1)) ((st.Motors i).RecalculateCommanded (st.Motors i).commanded)
      (st.Motors i).skewPerMsec (elapsedMsec t.test (st.Motors i).lastUpdate)
      (elapsedMsec t.step (st.Motors i).lastUpdate) with
  | none => simp
  | some v => simp

theorem managerVisit_frame (st : MotorState) (t : Millis) (i j : Int) (hij : j ≠ i) :
    AgreeOn i (managerVisit st t j) st := by
  cases hf : st.mutexFree j with
  | false => rw [managerVisit_locked st t j hf]; exact AgreeOn.refl i st
  | true =>
    rw [managerVisit_free st t j hf]
    refine ⟨?_, ?_, rfl⟩
    · simp only
      rw [Function.update_noteq (by omega)]
    · simp only
      rw [Function.update_noteq (Ne.symm hij)]

theorem managerVisit_congr (a b : MotorState) (t : Millis) (i : Int) (h : AgreeOn i a b) :
    AgreeOn i (managerVisit a t i) (managerVisit b t i) := by
  obtain ⟨h1, h2, h3⟩ := h
  cases hf : b.mutexFree i with
  | false =>
    rw [managerVisit_locked b t i hf, managerVisit_locked a t i (h3.trans hf)]
    exact ⟨h1, h2, h3⟩
  | true =>
    rw [managerVisit_free b t i hf, managerVisit_free a t i (h3.trans hf)]
    refine ⟨?_, ?_, h3⟩
    · show Function.update a.hw (i + 1) _ (i + 1) = Function.update b.hw (i + 1) _ (i + 1)
      rw [Function.update_same, Function.update_same]
      simp only [motorTarget, h1, h2]
    · show Function.update a.Motors i _ i = Function.update b.Motors i _ i
      rw [Function.update_same, Function.update_same, h2]

theorem foldl_visit_frame (clock : Int → Millis) (i : Int) (l : List Nat) :
    ∀ st : MotorState, (∀ j ∈ l, (j : Int) ≠ i) →
      AgreeOn i (l.foldl (fun (s : MotorState) (j : Nat) => managerVisit s (clock j) j) st) st := by
  induction l with
  | nil => intro st _; exact AgreeOn.refl i st
  | cons j rest ih =>
    intro st h
    simp only [List.foldl_cons]
    exact (ih _ (fun k hk => h k (List.mem_cons_of_mem _ hk))).trans
      (managerVisit_frame st (clock j) i j (h j (List.mem_cons_self _ _)))

/-- For the motor at index `i` a whole pass of the manager does what the visit
of that motor does. -/
theorem managerPass_agree (st : MotorState) (clock : Int → Millis) (i : Int)
    (hi : 0 ≤ i ∧ i < 10) :
    AgreeOn i (managerPass st clock) (managerVisit st (clock i) i) := by
  obtain ⟨n, rfl⟩ : ∃ n : Nat, i = (n : Int) := ⟨i.toNat, by omega⟩
  have hn : n < 10 := by omega
  have hsplit : List.range 10 = List.range n ++ n :: (List.range' (n + 1) (9 - n)) := by
    interval_cases n <;> decide
  unfold managerPass
  rw [hsplit, List.foldl_append, List.foldl_cons]
  have h1 := foldl_visit_frame clock (n : Int) (List.range n) st (by
    intro j hj; have := List.mem_range.mp hj; omega)
  have h2 := managerVisit_congr _ _ (clock (n : Int)) (n : Int) h1
  have h3 := foldl_visit_frame clock (n : Int) (List.range' (n + 1) (9 - n))
    (managerVisit (List.foldl (fun (s : MotorState) (j : Nat) => managerVisit s (clock j) j) st
      (List.range n)) (clock (n : Int)) (n : Int)) (by
    intro j hj; have := (List.mem_range'_1.mp hj).1; omega)
  exact h3.trans h2

theorem managerVisit_hw (st : MotorState) (t : Millis) (i : Int) :
    (managerVisit st t i).hw (i + 1) =
      if st.mutexFree i = true then
        rampNext (st.hw (i + 1)) (motorTarget st i) (st.Motors i).skewPerMsec
          (elapsedMsec t.test (st.Motors i).lastUpdate)
          (elapsedMsec t.step (st.Motors i).lastUpdate)
      else st.hw (i + 1) := by
  cases hf : st.mutexFree i with
  | false => rw [managerVisit_locked st t i hf]; simp
  | true => rw [managerVisit_free st t i hf]; simp

theorem managerVisit_motor (st : MotorState) (t : Millis) (i : Int) :
    motorTarget (managerVisit st t i) i = motorTarget st i ∧
      ((managerVisit st t i).Motors i).skewPerMsec = (st.Motors i).skewPerMsec ∧
      (managerVisit st t i).mutexFree i = st.mutexFree i := by
  cases hf : st.mutexFree i with
  | false => rw [managerVisit_locked st t i hf]; simp [hf]
  | true => rw [managerVisit_free st t i hf]; simp [motorTarget, hf]

theorem abs_sub_le_of_between (C T N : Int)
    (h : (C ≤ N ∧ N ≤ T) ∨ (T ≤ N ∧ N ≤ C)) : |T - N| ≤ |T - C| := by
  rcases h with h | h
  · rw [abs_of_nonneg (by omega), abs_of_nonneg (by omega)]; omega
  · rw [abs_of_nonpos (by omega), abs_of_nonpos (by omega)]; omega

/-- When the clock does not move between line 72 and line 79, one pass keeps
the output of motor `i` between the old output and the target, and leaves the
target and the skew of the motor as they were. -/
theorem managerPass_step (st : MotorState) (clock : Int → Millis) (i : Int) (s : ℚ)
    (hi : 0 ≤ i ∧ i < 10) (hskew : (st.Motors i).skewPerMsec = Double.finite s) (hs : 0 ≤ s)
    (hsame : (clock i).step = (clock i).test)
    (hdef : RampDefined (st.hw (i + 1)) (motorTarget st i)) :
    ((st.hw (i + 1) ≤ (managerPass st clock).hw (i + 1) ∧
        (managerPass st clock).hw (i + 1) ≤ motorTarget st i) ∨
      (motorTarget st i ≤ (managerPass st clock).hw (i + 1) ∧
        (managerPass st clock).hw (i + 1) ≤ st.hw (i + 1))) ∧
    motorTarget (managerPass st clock) i = motorTarget st i ∧
    ((managerPass st clock).Motors i).skewPerMsec = (st.Motors i).skewPerMsec := by
  obtain ⟨h1, h2, _⟩ := managerPass_agree st clock i hi
  obtain ⟨m1, m2, _⟩ := managerVisit_motor st (clock i) i
  refine ⟨?_, ?_, ?_⟩
  · rw [h1, managerVisit_hw]
    split_ifs with hf
    · rw [hskew, hsame]
      exact (rampNext_eq _ _ _ _ hs (elapsedMsec_nonneg _ _) hdef).2
    · rcases le_total (st.hw (i + 1)) (motorTarget st i) with h | h
      · left; exact ⟨le_refl _, h⟩
      · right; exact ⟨h, le_refl _⟩
  · unfold motorTarget at m1 ⊢
    rw [h2]; exact m1
  · rw [h2]; exact m2

/-- Over any sequence of passes in each of which the clock does not move
between line 72 and line 79, the output of motor `i` stays between where it
was and the target. -/
theorem MotorManagerTask_between (i : Int) (s : ℚ) (hi : 0 ≤ i ∧ i < 10) (hs : 0 ≤ s)
    (clocks : List (Int → Millis)) (hsame : ∀ clock ∈ clocks, (clock i).step = (clock i).test) :
    ∀ st : MotorState, (st.Motors i).skewPerMsec = Double.finite s →
      RampDefined (st.hw (i + 1)) (motorTarget st i) →
      ((st.hw (i + 1) ≤ (MotorManagerTask st clocks).hw (i + 1) ∧
          (MotorManagerTask st clocks).hw (i + 1) ≤ motorTarget st i) ∨
        (motorTarget st i ≤ (MotorManagerTask st clocks).hw (i + 1) ∧
          (MotorManagerTask st clocks).hw (i + 1) ≤ st.hw (i + 1))) ∧
      motorTarget (MotorManagerTask st clocks) i = motorTarget st i ∧
      ((MotorManagerTask st clocks).Motors i).skewPerMsec = (st.Motors i).skewPerMsec := by
  induction clocks with
  | nil =>
    intro st _ _
    refine ⟨?_, rfl, rfl⟩
    show (st.hw (i + 1) ≤ st.hw (i + 1) ∧ st.hw (i + 1) ≤ motorTarget st i) ∨
      (motorTarget st i ≤ st.hw (i + 1) ∧ st.hw (i + 1) ≤ st.hw (i + 1))
    rcases le_total (st.hw (i + 1)) (motorTarget st i) with h | h
    · left; exact ⟨le_refl _, h⟩
    · right; exact ⟨h, le_refl _⟩
  | cons clock rest ih =>
    intro st hskew hdef
    obtain ⟨b1, t1, s1⟩ := managerPass_step st clock i s hi hskew hs
      (hsame clock (List.mem_cons_self _ _)) hdef
    have hdef1 : RampDefined ((managerPass st clock).hw (i + 1))
        (motorTarget (managerPass st clock) i) := by
      rw [t1]; unfold RampDefined at hdef ⊢; omega
    obtain ⟨b2, t2, s2⟩ := ih (fun c hc => hsame c (List.mem_cons_of_mem _ hc))
      (managerPass st clock) (by rw [s1]; exact hskew) hdef1
    have hunf : MotorManagerTask st (clock :: rest) =
        MotorManagerTask (managerPass st clock) rest := rfl
    rw [hunf]
    refine ⟨?_, by rw [t2, t1], by rw [s2, s1]⟩
    rw [t1] at b2
    omega

/-- The output of port `i + 1` after a whole pass in which the lock of motor
`i` is taken. -/
theorem managerPass_hw (st : MotorState) (clock : Int → Millis) (i : Int)
    (hi : 0 ≤ i ∧ i < 10) (hfree : st.mutexFree i = true) :
    (managerPass st clock).hw (i + 1) =
      rampNext (st.hw (i + 1)) (motorTarget st i) (st.Motors i).skewPerMsec
        (elapsedMsec (clock i).test (st.Motors i).lastUpdate)
        (elapsedMsec (clock i).step (st.Motors i).lastUpdate) := by
  rw [(managerPass_agree st clock i hi).1, managerVisit_hw, if_pos hfree]

/-- The product of the double nearest to 1/51 and 51 lies below one and is
rounded to one. -/
theorem binary64_nearestTo51st :
    binary64 nearestTo51st = nearestTo51st ∧ nearestTo51st * 51 < 1 ∧
      binary64 (nearestTo51st * 51) = 1 := by
  refine ⟨?_, ?_, ?_⟩
  · have h := binary64_representable 5651576002974740 (-58) (by norm_num) (by norm_num)
    unfold nearestTo51st
    norm_num at h ⊢
    exact h
  · unfold nearestTo51st; norm_num
  · unfold nearestTo51st
    rw [binary64_of_bounds _ (-1) (by norm_num [abs_of_pos]) (by norm_num [abs_of_pos])]
    norm_num [roundHalfEven]

theorem PIDControllerComputer_eq (c : PIDController) (error now later : Int)
    (hdiv : pidDivisor c now ≠ 0) :
    ∃ out, PIDControllerComputer c error now later =
      some (if cAbs error < cAbs c.AcceptableTolerance then 0 else out,
        { c with integral := pidIntegral c error, prevTime := later, prevError := error }) := by
  unfold PIDControllerComputer pidDerivative
  simp only [hdiv, if_false]
  exact ⟨_, rfl⟩

theorem PIDControllerComputer_state (c c1 : PIDController) (error now later out : Int)
    (h : PIDControllerComputer c error now later = some (out, c1)) :
    c1 = { c with integral := pidIntegral c error, prevTime := later, prevError := error } := by
  unfold PIDControllerComputer at h
  cases hd : pidDerivative c error now with
  | none => simp [hd] at h
  | some d =>
    simp only [hd] at h
    injection h with h
    injection h with _ h2
    exact h2.symm

theorem pidIntegral_bounds (c : PIDController) (error : Int)
    (hmin : c.MinIntegral ≤ 0) (hmax : 0 ≤ c.MaxIntegral) :
    c.MinIntegral ≤ pidIntegral c error ∧ pidIntegral c error ≤ c.MaxIntegral := by
  unfold pidIntegral
  simp only
  split_ifs <;> omega

theorem pidRun_bounds (calls : List (Int × Int × Int)) :
    ∀ (c c1 : PIDController), c.MinIntegral ≤ 0 → 0 ≤ c.MaxIntegral →
      pidRun c calls = some c1 →
      c1.MinIntegral = c.MinIntegral ∧ c1.MaxIntegral = c.MaxIntegral ∧
        (calls ≠ [] → c.MinIntegral ≤ c1.integral ∧ c1.integral ≤ c.MaxIntegral) := by
  induction calls with
  | nil =>
    intro c c1 _ _ h
    simp only [pidRun, Option.some.injEq] at h
    subst h
    simp
  | cons a rest ih =>
    intro c c1 hmin hmax h
    obtain ⟨error, now, later⟩ := a
    simp only [pidRun] at h
    cases hstep : PIDControllerComputer c error now later with
    | none => simp [hstep] at h
    | some r =>
      obtain ⟨out, c2⟩ := r
      simp only [hstep] at h
      have hc2 := PIDControllerComputer_state c c2 error now later out hstep
      have hb := pidIntegral_bounds c error hmin hmax
      have hmin2 : c2.MinIntegral = c.MinIntegral := by rw [hc2]
      have hmax2 : c2.MaxIntegral = c.MaxIntegral := by rw [hc2]
      have hint2 : c2.integral = pidIntegral c error := by rw [hc2]
      obtain ⟨h1, h2, h3⟩ := ih c2 c1 (by omega) (by omega) h
      refine ⟨by omega, by omega, fun _ => ?_⟩
      by_cases hrest : rest = []
      · subst hrest
        simp only [pidRun, Option.some.injEq] at h
        subst h
        omega
      · have := h3 hrest
        omega

theorem pidRun_take (calls : List (Int × Int × Int)) :
    ∀ (c c1 : PIDController) (k : Nat), pidRun c calls = some c1 →
      ∃ ck, pidRun c (calls.take k) = some ck := by
  induction calls with
  | nil => intro c c1 k h; exact ⟨c, by simp [pidRun]⟩
  | cons a rest ih =>
    intro c c1 k h
    cases k with
    | zero => exact ⟨c, by simp [pidRun]⟩
    | succ k =>
      obtain ⟨error, now, later⟩ := a
      simp only [pidRun] at h
      cases hstep : PIDControllerComputer c error now later with
      | none => simp [hstep] at h
      | some r =>
        obtain ⟨out, c2⟩ := r
        simp only [hstep] at h
        obtain ⟨ck, hk⟩ := ih c2 c1 k h
        exact ⟨ck, by simp [pidRun, hstep, hk]⟩

/-- The flags of a run of the completion loop: a loop that has ended made
calls that returned true and then one that returned false; a loop still
running has only seen true. -/
theorem ExecuteCompletion_flags (rs : List PIDReading) :
    ∀ c : PIDController,
      (∀ c1 flags, PIDControllerExecuteCompletion c rs = Completion.returned c1 flags →
        ∃ n, flags = List.replicate n true ++ [false]) ∧
      (∀ c1 flags, PIDControllerExecuteCompletion c rs = Completion.running c1 flags →
        flags = List.replicate rs.length true) := by
  induction rs with
  | nil =>
    intro c
    refine ⟨?_, ?_⟩
    · intro c1 flags h; simp [PIDControllerExecuteCompletion] at h
    · intro c1 flags h
      simp only [PIDControllerExecuteCompletion, Completion.running.injEq] at h
      simp [← h.2]
  | cons r rest ih =>
    intro c
    cases hstep : PIDControllerExecuteContinuous c r with
    | none =>
      refine ⟨?_, ?_⟩ <;> intro c1 flags h <;>
        simp [PIDControllerExecuteCompletion, hstep] at h
    | some res =>
      obtain ⟨flag, c2, calls⟩ := res
      cases flag with
      | false =>
        refine ⟨?_, ?_⟩
        · intro c1 flags h
          simp only [PIDControllerExecuteCompletion, hstep, Bool.false_eq_true, if_false,
            Completion.returned.injEq] at h
          exact ⟨0, by simp [← h.2]⟩
        · intro c1 flags h
          simp [PIDControllerExecuteCompletion, hstep] at h
      | true =>
        obtain ⟨ih1, ih2⟩ := ih c2
        refine ⟨?_, ?_⟩
        · intro c1 flags h
          simp only [PIDControllerExecuteCompletion, hstep, if_true] at h
          cases hrec : PIDControllerExecuteCompletion c2 rest with
          | returned c3 fl =>
            rw [hrec] at h
            simp only [Completion.after, Completion.returned.injEq] at h
            obtain ⟨n, hn⟩ := ih1 c3 fl hrec
            exact ⟨n + 1, by rw [← h.2, hn]; rfl⟩
          | running c3 fl => rw [hrec] at h; simp [Completion.after] at h
          | failed => rw [hrec] at h; simp [Completion.after] at h
        · intro c1 flags h
          simp only [PIDControllerExecuteCompletion, hstep, if_true] at h
          cases hrec : PIDControllerExecuteCompletion c2 rest with
          | returned c3 fl => rw [hrec] at h; simp [Completion.after] at h
          | running c3 fl =>
            rw [hrec] at h
            simp only [Completion.after, Completion.running.injEq] at h
            rw [← h.2, ih2 c3 fl hrec]; rfl
          | failed => rw [hrec] at h; simp [Completion.after] at h


/-- One call of a sequence of calls, when its divisor is not zero. -/
theorem pidRun_step (c : PIDController) (error now later : Int) (rest : List (Int × Int × Int))
    (hdiv : pidDivisor c now ≠ 0) :
    pidRun c ((error, now, later) :: rest) =
      pidRun { c with integral := pidIntegral c error, prevTime := later, prevError := error }
        rest := by
  obtain ⟨out, h⟩ := PIDControllerComputer_eq c error now later hdiv
  simp only [pidRun, h]

/-- The result of `PIDControllerComputer` once the derivative term is known. -/
theorem PIDControllerComputer_value (c : PIDController) (error now later D : Int)
    (hD : pidDerivative c error now = some D) :
    PIDControllerComputer c error now later =
      some (if cAbs error < cAbs c.AcceptableTolerance then 0
          else castInt (pidSum c error (pidIntegral c error) D),
        { c with integral := pidIntegral c error, prevTime := later, prevError := error }) := by
  unfold PIDControllerComputer
  rw [hD]

/-- With all three gains zero the sum of line 111 is zero. -/
theorem pidSum_zero_gains (c : PIDController) (error integral derivative : Int)
    (hp : c.Kp = Double.finite 0) (hi : c.Ki = Double.finite 0) (hd : c.Kd = Double.finite 0) :
    pidSum c error integral derivative = Double.finite 0 := by
  have z0 : Double.ofRat 0 = Double.finite 0 :=
    Double.ofRat_eq_finite 0 0 binary64_zero (by norm_num)
  unfold pidSum
  rw [hp, hi, hd]
  simp only [Double.mul, Double.add, Double.ofInt, zero_mul, z0, add_zero]

/-- The gains of the master controller of the lift as doubles, and the sum
of line 111 for error 100, integral 100 and derivative 0. -/
theorem examplePID_sum : pidSum examplePID 100 100 0 = Double.finite 151 := by
  have z0 : Double.ofRat 0 = Double.finite 0 :=
    Double.ofRat_eq_finite 0 0 binary64_zero (by norm_num)
  have hp : Double.ofRat (3 / 2) = Double.finite (3 / 2) := by
    have h := binary64_representable 3 (-1) (by norm_num) (by norm_num)
    norm_num at h
    exact Double.ofRat_eq_finite _ _ h (by norm_num [abs_of_pos])
  have hi : Double.ofRat (1 / 100) = Double.finite (5764607523034235 / 2 ^ 59) := by
    refine Double.ofRat_eq_finite _ _ ?_ (by norm_num [abs_of_pos])
    rw [binary64_of_bounds _ (-7) (by norm_num [abs_of_pos]) (by norm_num [abs_of_pos])]
    norm_num [roundHalfEven]
  have m1 : Double.mul (Double.finite (3 / 2)) (Double.finite ((100 : Int) : ℚ)) =
      Double.finite 150 := by
    refine Double.mul_finite _ _ _ ?_ (by norm_num)
    have := binary64_intCast 150 (by norm_num)
    norm_num at this ⊢
    exact this
  have m2 : Double.mul (Double.finite (5764607523034235 / 2 ^ 59))
      (Double.finite ((100 : Int) : ℚ)) = Double.finite 1 := by
    refine Double.mul_finite _ _ _ ?_ (by norm_num)
    rw [binary64_of_bounds _ 0 (by norm_num [abs_of_pos]) (by norm_num [abs_of_pos])]
    norm_num [roundHalfEven]
  have m3 : Double.mul (Double.finite 0) (Double.finite ((0 : Int) : ℚ)) = Double.finite 0 := by
    refine Double.mul_finite _ _ _ ?_ (by norm_num)
    rw [zero_mul]; exact binary64_zero
  have a1 : Double.add (Double.finite 150) (Double.finite 1) = Double.finite 151 := by
    refine Double.add_finite _ _ _ ?_ (by norm_num)
    have := binary64_intCast 151 (by norm_num)
    norm_num at this ⊢
    exact this
  have a2 : Double.add (Double.finite 151) (Double.finite 0) = Double.finite 151 := by
    refine Double.add_finite _ _ _ ?_ (by norm_num)
    have := binary64_intCast 151 (by norm_num)
    norm_num at this ⊢
    exact this
  show Double.add (Double.add (Double.mul (Double.ofRat (3 / 2)) (Double.finite ((100 : Int) : ℚ)))
    (Double.mul (Double.ofRat (1 / 100)) (Double.finite ((100 : Int) : ℚ))))
    (Double.mul (Double.ofRat 0) (Double.finite ((0 : Int) : ℚ))) = Double.finite 151
  rw [hp, hi, z0, m1, m2, m3, a1, a2]

/-! ## The claims -/

/-- The clamp of `MotorSet` on the values on which `abs` is defined: for every
channel in 1..10 whose lock is available, whatever the inversion setting of
the channel and whatever the immediate flag, `MotorSet` returns true and
`MotorGet` then returns the value clamped to `[-127, 127]` with its sign
kept, for every `v` above `INT_MIN`. -/
theorem MotorGet_after_MotorSet_defined (st : MotorState) (channel v : Int) (immediate : Bool)
    (hch : 1 ≤ channel ∧ channel ≤ 10) (hfree : st.mutexFree (channel - 1) = true)
    (hv : -2147483648 < v) :
    (MotorSet st channel v immediate).1 = true ∧
      MotorGet (MotorSet st channel v immediate).2 channel =
        (if v > 127 then 127 else if v < -127 then -127 else v) := by
  refine ⟨?_, ?_⟩
  · rw [MotorSet_fst]; simp [hfree]; omega
  · rw [MotorSet_snd st channel v immediate hch hfree, clampSet_eq v hv]
    have h : ¬ (channel > 10 ∨ channel < 1) := by omega
    have hb : -127 ≤ (if v > 127 then 127 else if v < -127 then -127 else v) ∧
        (if v > 127 then 127 else if v < -127 then -127 else v) ≤ 127 := by
      split_ifs <;> omega
    generalize (if v > 127 then 127 else if v < -127 then -127 else v) = s at hb ⊢
    unfold MotorGet
    simp only [h, if_false, hfree, Function.update_same]
    rw [wrapInt_mul_sign s _ hb.1 hb.2]
    cases hi : (st.Motors (channel - 1)).inverted <;> simp <;>
      exact wrapInt_of_range _ (by omega) (by omega)

/-- C1, the code at the failing input: on channel 3 with the lock free,
`MotorSet(3, INT_MIN, immediate)` returns true and stores `INT_MIN`, which
`MotorGet(3)` then returns, where the claim says -127; with `immediate` set
the hardware receives `INT_MIN` as well. It is so on a port that is not
inverted and on an inverted one: `abs(INT_MIN)` is `INT_MIN`, which is not
above 127, so the value is not clamped. -/
theorem MotorSet_INT_MIN_not_clamped :
    exampleState.mutexFree (3 - 1) = true ∧
      cAbs (-2147483648) = -2147483648 ∧
      (MotorSet exampleState 3 (-2147483648) false).1 = true ∧
      MotorGet (MotorSet exampleState 3 (-2147483648) false).2 3 = -2147483648 ∧
      (MotorSet invertedState 3 (-2147483648) true).1 = true ∧
      MotorGet (MotorSet invertedState 3 (-2147483648) true).2 3 = -2147483648 ∧
      (MotorSet invertedState 3 (-2147483648) true).2.hw 3 = -2147483648 := by
  decide

/-- When the clock does not move between line 72 and line 79, the output does
not pass the target: for every motor (array index `i` in 0..9) with a finite
skew `s >= 0`, one pass leaves the output `N` between the previous output `C`
and the target `T` inclusive, so `|T - N| <= |T - C|`; and over any sequence
of such passes the target stays the same, the distance to `T` does not grow
and the sign of `T - output` does not flip. -/
theorem no_overshoot_on_steady_clock (st : MotorState) (i : Int) (s : ℚ) (hi : 0 ≤ i ∧ i < 10)
    (hskew : (st.Motors i).skewPerMsec = Double.finite s) (hs : 0 ≤ s)
    (hdef : RampDefined (st.hw (i + 1)) (motorTarget st i)) :
    (∀ clock : Int → Millis, (clock i).step = (clock i).test →
      ((st.hw (i + 1) ≤ (managerPass st clock).hw (i + 1) ∧
          (managerPass st clock).hw (i + 1) ≤ motorTarget st i) ∨
        (motorTarget st i ≤ (managerPass st clock).hw (i + 1) ∧
          (managerPass st clock).hw (i + 1) ≤ st.hw (i + 1))) ∧
      |motorTarget st i - (managerPass st clock).hw (i + 1)| ≤
        |motorTarget st i - st.hw (i + 1)|) ∧
    (∀ before after : List (Int → Millis),
      (∀ clock ∈ before ++ after, (clock i).step = (clock i).test) →
      motorTarget (MotorManagerTask st (before ++ after)) i = motorTarget st i ∧
      |motorTarget st i - (MotorManagerTask st (before ++ after)).hw (i + 1)| ≤
        |motorTarget st i - (MotorManagerTask st before).hw (i + 1)| ∧
      (0 < motorTarget st i - (MotorManagerTask st before).hw (i + 1) →
        0 ≤ motorTarget st i - (MotorManagerTask st (before ++ after)).hw (i + 1)) ∧
      (motorTarget st i - (MotorManagerTask st before).hw (i + 1) < 0 →
        motorTarget st i - (MotorManagerTask st (before ++ after)).hw (i + 1) ≤ 0)) := by
  refine ⟨?_, ?_⟩
  · intro clock hsame
    have hb := (managerPass_step st clock i s hi hskew hs hsame hdef).1
    exact ⟨hb, abs_sub_le_of_between _ _ _ hb⟩
  · intro before after hsame
    obtain ⟨b1, t1, s1⟩ := MotorManagerTask_between i s hi hs before
      (fun c hc => hsame c (List.mem_append_left _ hc)) st hskew hdef
    have hdef1 : RampDefined ((MotorManagerTask st before).hw (i + 1))
        (motorTarget (MotorManagerTask st before) i) := by
      rw [t1]; unfold RampDefined at hdef ⊢; omega
    obtain ⟨b2, t2, _⟩ := MotorManagerTask_between i s hi hs after
      (fun c hc => hsame c (List.mem_append_right _ hc)) (MotorManagerTask st before)
      (by rw [s1]; exact hskew) hdef1
    have happ : MotorManagerTask st (before ++ after) =
        MotorManagerTask (MotorManagerTask st before) after := by
      unfold MotorManagerTask; rw [List.foldl_append]
    rw [happ]
    rw [t1] at b2
    refine ⟨by rw [t2, t1], abs_sub_le_of_between _ _ _ b2, ?_, ?_⟩
    · intro h; omega
    · intro h; omega

/-- C3, the code at the failing input: a motor with output 0, target 50, a
skew of 1 per millisecond and its last update at time 0, handled while the
clock moves from 50 to 51 between line 72 and line 79. The comparison of
line 72 sees an allowance of 50, which the distance 50 is not below, so line
79 is reached; it reads the clock again, sees 51 and writes `0 + 51 = 51`,
past the target: the output is not between the old output and the target,
and the sign of `T - output` flips from positive to negative. With the clock
standing at 50 the same pass writes 50. -/
theorem managerPass_overshoots_on_tick :
    tickState.mutexFree 2 = true ∧ tickState.hw 3 = 0 ∧ motorTarget tickState 2 = 50 ∧
      (tickState.Motors 2).skewPerMsec = Double.finite 1 ∧
      (tickState.Motors 2).lastUpdate = 0 ∧
      tickBetween.test = 50 ∧ tickBetween.step = 51 ∧
      (managerPass tickState (fun _ => tickBetween)).hw 3 = 51 ∧
      motorTarget (managerPass tickState (fun _ => tickBetween)) 2 = 50 ∧
      ¬ ((managerPass tickState (fun _ => tickBetween)).hw 3 ≤ motorTarget tickState 2) ∧
      0 < motorTarget tickState 2 - tickState.hw 3 ∧
      motorTarget tickState 2 - (managerPass tickState (fun _ => tickBetween)).hw 3 < 0 ∧
      (managerPass tickState (fun _ => steadyAt 50)).hw 3 = 50 := by
  have e : (2 : Int) + 1 = 3 := rfl
  have hsign : Int.sign 50 = 1 := rfl
  have e50 : binary64 (50 : ℚ) = 50 := by
    simpa using binary64_intCast 50 (by norm_num)
  have e51 : binary64 (51 : ℚ) = 51 := by
    simpa using binary64_intCast 51 (by norm_num)
  have hN : (managerPass tickState (fun _ => tickBetween)).hw 3 = 51 := by
    have h := managerPass_hw tickState (fun _ => tickBetween) 2 (by decide) rfl
    rw [e] at h
    rw [h]
    show rampNext 0 50 (Double.finite 1) 50 51 = 51
    rw [rampNext_of_finite 0 50 1 50 51 (by decide) (by decide)]
    have hnot : ¬ (((|50 - 0| : Int) : ℚ) < binary64 (1 * ((50 : Int) : ℚ))) := by
      norm_num [e50]
    rw [if_neg hnot]
    have hpos : (50 : Int) - 0 > 0 := by decide
    rw [if_pos hpos, castInt_signed _ 1 (Or.inl rfl) (by norm_num [e51])
      (by norm_num [e51, truncQ])]
    norm_num [e51, truncQ, wrapInt]
  have hT : motorTarget (managerPass tickState (fun _ => tickBetween)) 2 = 50 := by
    have h2 := (managerPass_agree tickState (fun _ => tickBetween) 2 (by decide)).2.1
    unfold motorTarget
    rw [h2]
    exact (managerVisit_motor tickState tickBetween 2).1
  have hS : (managerPass tickState (fun _ => steadyAt 50)).hw 3 = 50 := by
    have h := managerPass_hw tickState (fun _ => steadyAt 50) 2 (by decide) rfl
    rw [e] at h
    rw [h]
    show rampNext 0 50 (Double.finite 1) 50 50 = 50
    rw [(rampNext_eq 0 50 1 50 (by norm_num) (by norm_num) (by decide)).1]
    norm_num [hsign, e50, truncQ]
  have hTt : motorTarget tickState 2 = 50 := rfl
  have hh : tickState.hw 3 = 0 := rfl
  refine ⟨rfl, rfl, rfl, rfl, rfl, rfl, rfl, hN, hT, ?_, ?_, ?_, hS⟩
  · rw [hN, hTt]; decide
  · rw [hTt, hh]; decide
  · rw [hN, hTt]; decide

/-- C4: for every controller state and every error with
`|error| < AcceptableTolerance`, `PIDControllerComputer` returns 0 and leaves
`integral` at 0. The hypothesis `hdiv` says that the division of line 108 has
a divisor other than zero, without which the call has no result. -/
theorem PIDControllerComputer_in_tolerance (c : PIDController) (error now later : Int)
    (htol : |error| < c.AcceptableTolerance) (hdiv : pidDivisor c now ≠ 0) :
    ∃ c1, PIDControllerComputer c error now later = some (0, c1) ∧ c1.integral = 0 := by
  have hlt := cAbs_lt_of_abs_lt error c.AcceptableTolerance htol
  obtain ⟨out, h⟩ := PIDControllerComputer_eq c error now later hdiv
  rw [if_pos hlt] at h
  refine ⟨_, h, ?_⟩
  simp [pidIntegral, hlt]

/-- C4 on the example controller (tolerance 2) with error 1. -/
theorem PIDControllerComputer_in_tolerance_witness :
    |(1 : Int)| < examplePID.AcceptableTolerance ∧ pidDivisor examplePID 7 ≠ 0 ∧
      ∃ c1, PIDControllerComputer examplePID 1 7 8 = some (0, c1) ∧ c1.integral = 0 :=
  ⟨by decide, by decide,
    PIDControllerComputer_in_tolerance examplePID 1 7 8 (by decide) (by decide)⟩

/-- C5, the claim as stated fails: a controller with `MinIntegral = 1`,
`MaxIntegral = 10`, tolerance 5 and `integral = 5` is inside its bounds, and
one call with error 0 leaves `integral = 0`, below `MinIntegral`. -/
theorem integral_leaves_bounds_positive_min :
    positiveMinPID.MinIntegral ≤ positiveMinPID.integral ∧
      positiveMinPID.integral ≤ positiveMinPID.MaxIntegral ∧
      (PIDControllerComputer positiveMinPID 0 7 8).map
        (fun r => (r.2.MinIntegral, r.2.integral, r.2.MaxIntegral)) = some (1, 0, 10) := by
  decide

/-- C5 as amended: for every controller with `MinIntegral <= 0 <= MaxIntegral`
and every finite sequence of calls of `PIDControllerComputer` that complete,
after each call (after the first `k` calls, for every `k` from 1 to the
length of the sequence) `integral` lies in `[MinIntegral, MaxIntegral]`. -/
theorem integral_within_bounds (c c1 : PIDController) (calls : List (Int × Int × Int))
    (hmin : c.MinIntegral ≤ 0) (hmax : 0 ≤ c.MaxIntegral)
    (hrun : pidRun c calls = some c1) (k : Nat) (hk : 0 < k) (hkl : k ≤ calls.length) :
    ∃ ck, pidRun c (calls.take k) = some ck ∧
      ck.MinIntegral ≤ ck.integral ∧ ck.integral ≤ ck.MaxIntegral := by
  obtain ⟨ck, hck⟩ := pidRun_take calls c c1 k hrun
  have hne : calls.take k ≠ [] := by
    intro h
    have hl := List.length_take k calls
    rw [h, List.length_nil] at hl
    omega
  obtain ⟨h1, h2, h3⟩ := pidRun_bounds (calls.take k) c ck hmin hmax hck
  have := h3 hne
  exact ⟨ck, hck, by omega, by omega⟩

/-- C5 as amended, on the example controller (bounds -200 and 300) and three
calls with errors 250, 250 and -900. -/
theorem integral_within_bounds_witness :
    examplePID.MinIntegral ≤ 0 ∧ 0 ≤ examplePID.MaxIntegral ∧
      (pidRun examplePID [(250, 7, 8), (250, 20, 21), (-900, 40, 41)]).map
        (fun r => r.integral) = some (-200) ∧
      ∃ ck, pidRun examplePID ([(250, 7, 8), (250, 20, 21), (-900, 40, 41)].take 2) = some ck ∧
        ck.MinIntegral ≤ ck.integral ∧ ck.integral ≤ ck.MaxIntegral :=
  ⟨by decide, by decide, by decide,
    integral_within_bounds examplePID
      { examplePID with integral := -200, prevTime := 41, prevError := -900 }
      [(250, 7, 8), (250, 20, 21), (-900, 40, 41)] (by decide) (by decide)
      (by
        rw [pidRun_step _ _ _ _ _ (by decide), pidRun_step _ _ _ _ _ (by decide),
          pidRun_step _ _ _ _ _ (by decide)]
        rfl)
      2 (by decide) (by decide)⟩

/-- C6, the code at a failing input: with the goal at 100 and the sensor at 0
the single call of `PIDControllerExecuteContinuous` returns false and
`PIDControllerExecuteCompletion` returns at once; with the sensor at the goal
every call returns true and the loop is still running after three calls. The
loop runs while the call returns true and ends on the first false. -/
theorem ExecuteCompletion_returns_on_false :
    (PIDControllerExecuteContinuous goalPID (readingAtZero 7)).map (fun r => r.1) = some false ∧
      (PIDControllerExecuteCompletion goalPID [readingAtZero 7]).hasReturned = true ∧
      (PIDControllerExecuteCompletion goalPID [readingAtZero 7]).flags = [false] ∧
      (PIDControllerExecuteCompletion goalPID
          [readingAtGoal 7, readingAtGoal 50, readingAtGoal 90]).hasReturned = false ∧
      (PIDControllerExecuteCompletion goalPID
          [readingAtGoal 7, readingAtGoal 50, readingAtGoal 90]).flags = [true, true, true] := by
  decide

/-- C7: whatever the value and the immediate flag, `LiftSetLeft` and
`LiftSetRight` called while the bottom limit switch reads LOW with a negative
value, or while the top limit switch reads LOW with a positive value, call
`MotorSet` with 0 and immediate = true on the three motors of their side, and
no call carries a value other than 0. -/
theorem LiftSet_limit_override (p : LiftPorts) (botlimLow toplimLow : Bool) (value : Int)
    (immediate : Bool)
    (hlim : (botlimLow = true ∧ value < 0) ∨ (toplimLow = true ∧ value > 0)) :
    LiftSetLeft p botlimLow toplimLow value immediate =
        [⟨p.MOTOR_LIFT_FRONTLEFT, 0, true⟩, ⟨p.MOTOR_LIFT_REARLEFT, 0, true⟩,
          ⟨p.MOTOR_LIFT_MIDDLELEFT, 0, true⟩] ∧
      LiftSetRight p botlimLow toplimLow value immediate =
        [⟨p.MOTOR_LIFT_FRONTRIGHT, 0, true⟩, ⟨p.MOTOR_LIFT_REARRIGHT, 0, true⟩,
          ⟨p.MOTOR_LIFT_MIDDLERIGHT, 0, true⟩] ∧
      (∀ c ∈ LiftSetLeft p botlimLow toplimLow value immediate ++
          LiftSetRight p botlimLow toplimLow value immediate, c.set = 0 ∧ c.immediate = true) := by
  have hl : LiftSetLeft p botlimLow toplimLow value immediate =
      [⟨p.MOTOR_LIFT_FRONTLEFT, 0, true⟩, ⟨p.MOTOR_LIFT_REARLEFT, 0, true⟩,
        ⟨p.MOTOR_LIFT_MIDDLELEFT, 0, true⟩] := by
    unfold LiftSetLeft; rw [if_pos hlim]
  have hr : LiftSetRight p botlimLow toplimLow value immediate =
      [⟨p.MOTOR_LIFT_FRONTRIGHT, 0, true⟩, ⟨p.MOTOR_LIFT_REARRIGHT, 0, true⟩,
        ⟨p.MOTOR_LIFT_MIDDLERIGHT, 0, true⟩] := by
    unfold LiftSetRight; rw [if_pos hlim]
  refine ⟨hl, hr, ?_⟩
  rw [hl, hr]
  intro c hc
  simp at hc
  rcases hc with h | h | h | h | h | h <;> subst h <;> exact ⟨rfl, rfl⟩

/-- C7 at the bottom limit with a large negative value and at the top limit
with a large positive one. -/
theorem LiftSet_limit_override_witness :
    ((true = true ∧ (-2000000 : Int) < 0) ∨ (false = true ∧ (-2000000 : Int) > 0)) ∧
      LiftSetLeft examplePorts true false (-2000000) false =
        [⟨2, 0, true⟩, ⟨3, 0, true⟩, ⟨4, 0, true⟩] ∧
      LiftSetRight examplePorts false true 2000000 false =
        [⟨7, 0, true⟩, ⟨8, 0, true⟩, ⟨9, 0, true⟩] :=
  ⟨by decide, (LiftSet_limit_override examplePorts true false (-2000000) false (by decide)).1,
    (LiftSet_limit_override examplePorts false true 2000000 false (by decide)).2.1⟩

/-- C8, the code at the failing inputs: the guard `channel < 0 || channel > 11`
lets 0 and 11 through, and both functions then index `Mutexes` at -1 and at
10, outside the ten declared elements. -/
theorem MotorConfigure_guard_admits_0_and_11 (st : MotorState) (inverted : Bool) (skew : Double)
    (func : Int → Int) :
    MotorConfigure st 11 inverted skew = Except.error (Fault.outOfBounds 10) ∧
      MotorConfigure st 0 inverted skew = Except.error (Fault.outOfBounds (-1)) ∧
      MotorChangeRecalculateCommanded st 11 func = Except.error (Fault.outOfBounds 10) ∧
      MotorChangeRecalculateCommanded st 0 func = Except.error (Fault.outOfBounds (-1)) := by
  simp [MotorConfigure, MotorChangeRecalculateCommanded]

/-- C9: `MotorSet` returns false exactly when the channel is outside 1..10 or
the lock of the channel cannot be taken, and it then leaves the whole state
(every motor and every hardware output) as it was; in every other case it
returns true. -/
theorem MotorSet_returns_false_iff (st : MotorState) (channel v : Int) (immediate : Bool) :
    ((MotorSet st channel v immediate).1 = false ↔
        (channel < 1 ∨ 10 < channel ∨ st.mutexFree (channel - 1) = false)) ∧
      ((MotorSet st channel v immediate).1 = false → (MotorSet st channel v immediate).2 = st) ∧
      (¬ (channel < 1 ∨ 10 < channel ∨ st.mutexFree (channel - 1) = false) →
        (MotorSet st channel v immediate).1 = true) := by
  have key : (MotorSet st channel v immediate).1 = false ↔
      (channel < 1 ∨ 10 < channel ∨ st.mutexFree (channel - 1) = false) := by
    rw [MotorSet_fst]
    cases hf : st.mutexFree (channel - 1)
    · simp
    · simp; omega
  refine ⟨key, ?_, ?_⟩
  · intro h
    have hc := key.mp h
    unfold MotorSet
    by_cases h1 : channel > 10 ∨ channel < 1
    · simp [h1]
    · have hf : st.mutexFree (channel - 1) = false := by
        rcases hc with hc | hc | hc
        · exact absurd (Or.inr hc) h1
        · exact absurd (Or.inl hc) h1
        · exact hc
      simp [h1, hf]
  · intro h
    cases hr : (MotorSet st channel v immediate).1
    · exact absurd (key.mp hr) h
    · rfl

/-- C10, the code at the failing input: on a port configured as inverted
`MotorSet(1, 127, true)` hands 127 to the hardware, and on a port that is not
inverted it hands -127; the multiplier is `inverted ? 1 : -1`. -/
theorem MotorSet_inverted_port_not_negated :
    (invertedState.Motors 0).inverted = true ∧
      (MotorSet invertedState 1 127 true).1 = true ∧
      (MotorSet invertedState 1 127 true).2.hw 1 = 127 ∧
      (exampleState.Motors 0).inverted = false ∧
      (MotorSet exampleState 1 127 true).2.hw 1 = -127 := by
  decide

/-! ## Lemmas for the second group of claims -/

/-- The state left by a `MotorConfigure` that takes the lock. -/
theorem MotorConfigure_ok (st : MotorState) (channel : Int) (inv : Bool) (s : Double)
    (hch : 1 ≤ channel ∧ channel ≤ 10) (hfree : st.mutexFree (channel - 1) = true) :
    MotorConfigure st channel inv s =
      Except.ok
        { Motors := Function.update st.Motors (channel - 1)
            ({ channel := channel - 1 + 1, commanded := (st.Motors (channel - 1)).commanded,
               inverted := inv, skewPerMsec := s,
               lastUpdate := (st.Motors (channel - 1)).lastUpdate,
               RecalculateCommanded := DefaultRecalculate } : Motor)
          mutexFree := st.mutexFree
          hw := st.hw } := by
  have h1 : ¬ (channel < 0 ∨ channel > 11) := by omega
  have h2 : ¬ (channel - 1 < 0 ∨ 10 ≤ channel - 1) := by omega
  simp only [MotorConfigure, h1, h2, if_false, hfree, Bool.true_eq_false]

/-- A `MotorSet` that returns at the guard or fails to take the lock leaves
the state as it is. -/
theorem MotorSet_noop (st : MotorState) (channel v : Int) (immediate : Bool)
    (h : (channel > 10 ∨ channel < 1) ∨ st.mutexFree (channel - 1) = false) :
    (MotorSet st channel v immediate).2 = st := by
  unfold MotorSet
  by_cases h1 : channel > 10 ∨ channel < 1
  · simp [h1]
  · have hf : st.mutexFree (channel - 1) = false := h.resolve_left h1
    simp [h1, hf]

/-- A `MotorSet` with a value above `INT_MIN` keeps every stored target in
range. -/
theorem MotorSet_commanded_range (st : MotorState) (channel v : Int) (immediate : Bool)
    (hv : -2147483648 < v) (hinv : CommandedInRange st) :
    CommandedInRange (MotorSet st channel v immediate).2 := by
  by_cases h : (channel > 10 ∨ channel < 1) ∨ st.mutexFree (channel - 1) = false
  · rw [MotorSet_noop st channel v immediate h]; exact hinv
  · have hch : 1 ≤ channel ∧ channel ≤ 10 := by
      have := not_or.mp h
      omega
    have hfree : st.mutexFree (channel - 1) = true := by
      have := (not_or.mp h).2
      simpa using this
    rw [MotorSet_snd st channel v immediate hch hfree, clampSet_eq v hv]
    have hb : -127 ≤ (if v > 127 then 127 else if v < -127 then -127 else v) ∧
        (if v > 127 then 127 else if v < -127 then -127 else v) ≤ 127 := by
      split_ifs <;> omega
    generalize (if v > 127 then 127 else if v < -127 then -127 else v) = s at hb ⊢
    intro j
    by_cases hj : j = channel - 1
    · subst hj
      simp only [Function.update_same]
      rw [wrapInt_mul_sign s _ hb.1 hb.2]
      cases (st.Motors (channel - 1)).inverted <;> simp <;> omega
    · simp only [Function.update_noteq hj]
      exact hinv j

/-- The manager does not write the stored target of any motor. -/
theorem managerVisit_commanded (st : MotorState) (t : Millis) (i : Int) (j : Int) :
    ((managerVisit st t i).Motors j).commanded = (st.Motors j).commanded := by
  cases hf : st.mutexFree i with
  | false => rw [managerVisit_locked st t i hf]
  | true =>
    rw [managerVisit_free st t i hf]
    by_cases hj : j = i
    · subst hj; simp
    · simp [Function.update_noteq hj]

theorem managerPass_commanded (st : MotorState) (clock : Int → Millis) (j : Int) :
    ((managerPass st clock).Motors j).commanded = (st.Motors j).commanded := by
  unfold managerPass
  generalize List.range 10 = l
  induction l generalizing st with
  | nil => rfl
  | cons i rest ih =>
    simp only [List.foldl_cons]
    rw [ih, managerVisit_commanded]

/-- The two configuration functions do not write the stored target. -/
theorem MotorConfigure_commanded (st st1 : MotorState) (channel : Int) (inv : Bool) (s : Double)
    (h : MotorConfigure st channel inv s = Except.ok st1) (j : Int) :
    (st1.Motors j).commanded = (st.Motors j).commanded := by
  by_cases h1 : channel < 0 ∨ channel > 11
  · simp only [MotorConfigure, h1, if_true, Except.ok.injEq] at h
    subst h; rfl
  · by_cases h2 : channel - 1 < 0 ∨ 10 ≤ channel - 1
    · simp only [MotorConfigure, h1, h2, if_true, if_false] at h
      cases h
    · by_cases h3 : st.mutexFree (channel - 1) = false
      · simp only [MotorConfigure, h1, h2, h3, if_true, if_false, Except.ok.injEq] at h
        subst h; rfl
      · have hfree : st.mutexFree (channel - 1) = true := by simpa using h3
        simp only [MotorConfigure, h1, h2, hfree, if_false, Bool.true_eq_false, Except.ok.injEq] at h
        subst h
        by_cases hj : j = channel - 1
        · subst hj; simp
        · simp [Function.update_noteq hj]

theorem MotorChangeRecalculateCommanded_commanded (st st1 : MotorState) (channel : Int)
    (func : Int → Int) (h : MotorChangeRecalculateCommanded st channel func = Except.ok st1)
    (j : Int) : (st1.Motors j).commanded = (st.Motors j).commanded := by
  by_cases h1 : channel < 0 ∨ channel > 11
  · simp only [MotorChangeRecalculateCommanded, h1, if_true, Except.ok.injEq] at h
    subst h; rfl
  · by_cases h2 : channel - 1 < 0 ∨ 10 ≤ channel - 1
    · simp only [MotorChangeRecalculateCommanded, h1, h2, if_true, if_false] at h
      cases h
    · by_cases h3 : st.mutexFree (channel - 1) = false
      · simp only [MotorChangeRecalculateCommanded, h1, h2, h3, if_true, if_false, Except.ok.injEq] at h
        subst h; rfl
      · have hfree : st.mutexFree (channel - 1) = true := by simpa using h3
        simp only [MotorChangeRecalculateCommanded, h1, h2, hfree, if_false, Bool.true_eq_false, Except.ok.injEq] at h
        subst h
        by_cases hj : j = channel - 1
        · subst hj; simp
        · simp [Function.update_noteq hj]

theorem MotorOp_apply_commanded_range (st st1 : MotorState) (op : MotorOp)
    (hdef : op.Defined) (hinv : CommandedInRange st) (h : op.apply st = Except.ok st1) :
    CommandedInRange st1 := by
  cases op with
  | set channel value immediate =>
    simp only [MotorOp.apply, Except.ok.injEq] at h
    subst h
    exact MotorSet_commanded_range st channel value immediate hdef hinv
  | configure channel inverted skew =>
    intro j
    rw [MotorConfigure_commanded st st1 channel inverted skew h j]; exact hinv j
  | recalculate channel func =>
    intro j
    rw [MotorChangeRecalculateCommanded_commanded st st1 channel func h j]; exact hinv j
  | pass clock =>
    simp only [MotorOp.apply, Except.ok.injEq] at h
    subst h
    intro j
    rw [managerPass_commanded]; exact hinv j
  | contend free =>
    simp only [MotorOp.apply, Except.ok.injEq] at h
    subst h
    exact hinv

theorem runOps_commanded_range (ops : List MotorOp) :
    ∀ st st1 : MotorState, (∀ op ∈ ops, op.Defined) → CommandedInRange st →
      runOps st ops = Except.ok st1 → CommandedInRange st1 := by
  induction ops with
  | nil =>
    intro st st1 _ hinv h
    simp only [runOps, Except.ok.injEq] at h
    subst h; exact hinv
  | cons op rest ih =>
    intro st st1 hdef hinv h
    simp only [runOps] at h
    cases hop : op.apply st with
    | error e => rw [hop] at h; cases h
    | ok st2 =>
      rw [hop] at h
      exact ih st2 st1 (fun o ho => hdef o (List.mem_cons_of_mem _ ho))
        (MotorOp_apply_commanded_range st st2 op (hdef op (List.mem_cons_self _ _)) hinv hop) h

/-- C12, the code at failing inputs: the divisor
`(micros() - prevTime) * 1000000` is zero when `micros()` equals `prevTime`,
and also when the two are `2^26 = 67108864` microseconds apart, because the
product is reduced modulo `2^32`; the division of line 108 then has no
result. -/
theorem pidDivisor_can_be_zero :
    pidDivisor examplePID 0 = 0 ∧
      (PIDControllerComputer examplePID 5 0 1).isSome = false ∧
      wrapULong (67108864 - examplePID.prevTime) = 67108864 ∧
      pidDivisor examplePID 67108864 = 0 ∧
      (PIDControllerComputer examplePID 5 67108864 67108865).isSome = false := by
  decide

/-- The sum of line 111 for the controller whose `Kp` is the double nearest
to 1/51, at error 51. -/
theorem roundingPID_sum : pidSum roundingPID 51 51 0 = Double.finite 1 := by
  have m1 : Double.mul (Double.finite nearestTo51st) (Double.finite ((51 : Int) : ℚ)) =
      Double.finite 1 := by
    refine Double.mul_finite _ _ _ ?_ (by norm_num)
    have := binary64_nearestTo51st.2.2
    norm_num at this ⊢
    exact this
  have m2 : Double.mul (Double.finite 0) (Double.finite ((51 : Int) : ℚ)) =
      Double.finite 0 := by
    refine Double.mul_finite _ _ _ ?_ (by norm_num)
    rw [zero_mul]; exact binary64_zero
  have m3 : Double.mul (Double.finite 0) (Double.finite ((0 : Int) : ℚ)) = Double.finite 0 := by
    refine Double.mul_finite _ _ _ ?_ (by norm_num)
    rw [zero_mul]; exact binary64_zero
  have a1 : Double.add (Double.finite 1) (Double.finite 0) = Double.finite 1 := by
    refine Double.add_finite _ _ _ ?_ (by norm_num)
    have := binary64_intCast 1 (by norm_num)
    norm_num at this ⊢
    exact this
  show Double.add (Double.add
    (Double.mul (Double.finite nearestTo51st) (Double.finite ((51 : Int) : ℚ)))
    (Double.mul (Double.finite 0) (Double.finite ((51 : Int) : ℚ))))
    (Double.mul (Double.finite 0) (Double.finite ((0 : Int) : ℚ))) = Double.finite 1
  rw [m1, m2, m3, a1, a1]

/-- The sum of line 111 for the controller with `Kp = -2^40`, at error 2. -/
theorem hugeGainPID_sum : pidSum hugeGainPID 2 2 0 = Double.finite (-2199023255552) := by
  have h41 : binary64 (-2199023255552 : ℚ) = -2199023255552 := by
    have := binary64_intCast (-2199023255552) (by norm_num)
    norm_num at this ⊢
    exact this
  have m1 : Double.mul (Double.finite (-1099511627776)) (Double.finite ((2 : Int) : ℚ)) =
      Double.finite (-2199023255552) := by
    refine Double.mul_finite _ _ _ ?_ (by norm_num)
    norm_num
    exact h41
  have m2 : Double.mul (Double.finite 0) (Double.finite ((2 : Int) : ℚ)) =
      Double.finite 0 := by
    refine Double.mul_finite _ _ _ ?_ (by norm_num)
    rw [zero_mul]; exact binary64_zero
  have m3 : Double.mul (Double.finite 0) (Double.finite ((0 : Int) : ℚ)) = Double.finite 0 := by
    refine Double.mul_finite _ _ _ ?_ (by norm_num)
    rw [zero_mul]; exact binary64_zero
  have a1 : Double.add (Double.finite (-2199023255552)) (Double.finite 0) =
      Double.finite (-2199023255552) := by
    refine Double.add_finite _ _ _ ?_ (by norm_num)
    rw [add_zero]; exact h41
  show Double.add (Double.add
    (Double.mul (Double.finite (-1099511627776)) (Double.finite ((2 : Int) : ℚ)))
    (Double.mul (Double.finite 0) (Double.finite ((2 : Int) : ℚ))))
    (Double.mul (Double.finite 0) (Double.finite ((0 : Int) : ℚ))) =
      Double.finite (-2199023255552)
  rw [m1, m2, m3, a1, a1]

/-- C14, the claim as stated fails, in three ways. With `Kp` the double
nearest to 1/51 and error 51 the call returns 1, while `Kp * error` is
`1 - 2^-56` and its integer part 0: the product of the two doubles is rounded.
With `Kp = -2^40` and error 2 the sum is `-2^41`, which no `int` holds; the
call returns an `int`, here `INT_MIN`. And with `Kp = 1` and error `INT_MIN`, which
is outside the dead band of width 2, the call returns 0, because
`abs(INT_MIN)` is `INT_MIN`, below the tolerance. -/
theorem PIDControllerComputer_not_exact_sum :
    binary64 nearestTo51st = nearestTo51st ∧
      |roundingPID.AcceptableTolerance| ≤ |(51 : Int)| ∧
      (PIDControllerComputer roundingPID 51 7 8).map (fun r => r.1) = some 1 ∧
      pidDerivative roundingPID 51 7 = some 0 ∧
      specPidOutput nearestTo51st 0 0 51 51 0 = 0 ∧
      (PIDControllerComputer hugeGainPID 2 7 8).map (fun r => r.1) = some (-2147483648) ∧
      pidDerivative hugeGainPID 2 7 = some 0 ∧
      specPidOutput (-1099511627776) 0 0 2 2 0 = -2199023255552 ∧
      |unitGainPID.AcceptableTolerance| ≤ |(-2147483648 : Int)| ∧
      (PIDControllerComputer unitGainPID (-2147483648) 7 8).map (fun r => r.1) = some 0 ∧
      pidDerivative unitGainPID (-2147483648) 7 = some 306 ∧
      specPidOutput 1 0 0 (-2147483648) (-200) 306 = -2147483648 := by
  have hA : (PIDControllerComputer roundingPID 51 7 8).map (fun r => r.1) = some 1 := by
    rw [PIDControllerComputer_value roundingPID 51 7 8 0 (by decide)]
    have hband : ¬ cAbs 51 < cAbs roundingPID.AcceptableTolerance := by decide
    have hI : pidIntegral roundingPID 51 = 51 := by decide
    rw [if_neg hband, hI, roundingPID_sum]
    have : castInt (Double.finite 1) = 1 := by
      have h := castInt_finite_of_range ((1 : Int) : ℚ) (by rw [truncQ_intCast]; decide)
        (by rw [truncQ_intCast]; decide)
      rw [truncQ_intCast] at h
      simpa using h
    rw [this]
    rfl
  have hB : (PIDControllerComputer hugeGainPID 2 7 8).map (fun r => r.1) =
      some (-2147483648) := by
    rw [PIDControllerComputer_value hugeGainPID 2 7 8 0 (by decide)]
    have hband : ¬ cAbs 2 < cAbs hugeGainPID.AcceptableTolerance := by decide
    have hI : pidIntegral hugeGainPID 2 = 2 := by decide
    rw [if_neg hband, hI, hugeGainPID_sum]
    have : castInt (Double.finite (-2199023255552)) = -2147483648 := by
      have ht : truncQ (-2199023255552 : ℚ) = -2199023255552 := by
        have := truncQ_intCast (-2199023255552)
        simpa using this
      unfold castInt
      simp only [ht]
      rw [if_neg (by decide)]
    rw [this]
    rfl
  have s1 : specPidOutput nearestTo51st 0 0 51 51 0 = 0 := by
    unfold specPidOutput
    have e : nearestTo51st * ((51 : Int) : ℚ) + 0 * ((51 : Int) : ℚ) + 0 * ((0 : Int) : ℚ) =
        nearestTo51st * 51 := by push_cast; ring
    rw [e]
    exact truncQ_small _ (by unfold nearestTo51st; norm_num) binary64_nearestTo51st.2.1
  have s2 : specPidOutput (-1099511627776) 0 0 2 2 0 = -2199023255552 := by
    unfold specPidOutput
    have e : (-1099511627776 : ℚ) * ((2 : Int) : ℚ) + 0 * ((2 : Int) : ℚ) +
        0 * ((0 : Int) : ℚ) = ((-2199023255552 : Int) : ℚ) := by norm_num
    rw [e, truncQ_intCast]
  have s3 : specPidOutput 1 0 0 (-2147483648) (-200) 306 = -2147483648 := by
    unfold specPidOutput
    have e : (1 : ℚ) * ((-2147483648 : Int) : ℚ) + 0 * ((-200 : Int) : ℚ) +
        0 * ((306 : Int) : ℚ) = ((-2147483648 : Int) : ℚ) := by norm_num
    rw [e, truncQ_intCast]
  exact ⟨binary64_nearestTo51st.1, by decide, hA, by decide, s1, hB, by decide, s2, by decide,
    by decide, by decide, s3⟩

/-- C14 as amended: for every error above `INT_MIN` outside the dead band
(`|error| >= |AcceptableTolerance|`) `PIDControllerComputer` returns the sum
`(Kp * error) + (Ki * I) + (Kd * D)` of line 111, computed in `double`
arithmetic with each product and each sum rounded, cast to `int`: when the
sum is a finite number whose integer part is an `int`, the result is that
integer part (truncation toward zero). `I` is the integral after the `int`
addition of the error and the clamp to `[MinIntegral, MaxIntegral]` and `D`
is the derivative term; afterwards `integral = I` and `prevError = error`.
With `Kp = Ki = Kd = 0` the output is 0 for every error. The hypothesis
`hdiv` says that the division of line 108 has a divisor other than zero. -/
theorem PIDControllerComputer_outside_band (c : PIDController) (error now later : Int)
    (hdiv : pidDivisor c now ≠ 0) :
    (-2147483648 < error → |c.AcceptableTolerance| ≤ |error| →
      ∃ D I, pidDerivative c error now = some D ∧
        I = (if wrapInt (c.integral + error) < c.MinIntegral then c.MinIntegral
              else if wrapInt (c.integral + error) > c.MaxIntegral then c.MaxIntegral
              else wrapInt (c.integral + error)) ∧
        PIDControllerComputer c error now later =
          some (castInt (pidSum c error I D),
            { c with integral := I, prevTime := later, prevError := error }) ∧
        pidSum c error I D =
          Double.add
            (Double.add (Double.mul c.Kp (Double.ofInt error))
              (Double.mul c.Ki (Double.ofInt I)))
            (Double.mul c.Kd (Double.ofInt D)) ∧
        (∀ q : ℚ, pidSum c error I D = Double.finite q →
          -2147483648 ≤ truncQ q → truncQ q ≤ 2147483647 →
          castInt (pidSum c error I D) = truncQ q)) ∧
    (c.Kp = Double.finite 0 → c.Ki = Double.finite 0 → c.Kd = Double.finite 0 →
      ∃ c1, PIDControllerComputer c error now later = some (0, c1) ∧ c1.prevError = error) := by
  have hder : ∃ D, pidDerivative c error now = some D := by
    unfold pidDerivative; rw [if_neg hdiv]; exact ⟨_, rfl⟩
  obtain ⟨D, hD⟩ := hder
  refine ⟨?_, ?_⟩
  · intro he hband
    have hnot : ¬ cAbs error < cAbs c.AcceptableTolerance := by
      have h1 := cAbs_le_abs c.AcceptableTolerance
      rw [cAbs_of_defined _ he]
      omega
    refine ⟨D, _, hD, rfl, ?_, rfl, ?_⟩
    · rw [PIDControllerComputer_value c error now later D hD, if_neg hnot]
      simp only [pidIntegral, hnot, if_false]
    · intro q hq h1 h2
      rw [hq]
      exact castInt_finite_of_range q h1 h2
  · intro hp hi hd
    rw [PIDControllerComputer_value c error now later D hD]
    have hz : castInt (pidSum c error (pidIntegral c error) D) = 0 := by
      rw [pidSum_zero_gains c _ _ _ hp hi hd]
      norm_num [castInt, truncQ]
    rw [hz, ite_self]
    exact ⟨_, rfl, rfl⟩

/-- C14 as amended, on the master controller of the lift (gains 1.5, 0.01 and
0) with error 100 (output 151) and on the controller with zero gains. -/
theorem PIDControllerComputer_outside_band_witness :
    pidDivisor examplePID 7 ≠ 0 ∧ (-2147483648 : Int) < 100 ∧
      |examplePID.AcceptableTolerance| ≤ |(100 : Int)| ∧
      (PIDControllerComputer examplePID 100 7 8).map (fun r => r.1) = some 151 ∧
      ∃ c1, PIDControllerComputer zeroGainPID 100 7 8 = some (0, c1) ∧ c1.prevError = 100 :=
  ⟨by decide, by decide, by decide,
    match (PIDControllerComputer_outside_band examplePID 100 7 8 (by decide)).1
      (by decide) (by decide) with
    | ⟨D, I, hD, hI, h, _, hcast⟩ => by
      have hD0 : D = 0 := by
        have : pidDerivative examplePID 100 7 = some 0 := by decide
        rw [this] at hD; exact (Option.some.inj hD).symm
      have hI0 : I = 100 := by rw [hI]; decide
      subst hD0 hI0
      rw [h, hcast 151 examplePID_sum (by norm_num [truncQ]) (by norm_num [truncQ])]
      norm_num [truncQ],
    (PIDControllerComputer_outside_band zeroGainPID 100 7 8 (by decide)).2 rfl rfl rfl⟩

/-- C15, the code at failing inputs: 50 ms after the previous step
(`micros() - prevTime = 50000`) with the error changed from 0 to 10 the
derivative of the code is 0, and with the error changed from 0 to -10 it is
1; the change of the error per second is 200 and -200. The code divides the
difference, converted to `unsigned long`, by the elapsed time multiplied by
1000000 modulo `2^32`. -/
theorem pidDerivative_not_per_second :
    examplePID.prevError = 0 ∧ examplePID.prevTime = 0 ∧
      pidDerivative examplePID 10 50000 = some 0 ∧
      specDerivative examplePID 10 50000 = 200 ∧
      pidDerivative examplePID (-10) 50000 = some 1 ∧
      specDerivative examplePID (-10) 50000 = -200 := by
  refine ⟨rfl, rfl, by decide, ?_, by decide, ?_⟩
  · norm_num [specDerivative, examplePID]
  · norm_num [specDerivative, examplePID]

/-- C16, the code at the failing input: from `InitializeMotorManager`, where all
stored targets are 0, the single call `MotorSet(3, INT_MIN, false)` leaves the
stored target of port 3 at `INT_MIN`, outside `[-127, 127]`. The range check
of `MotorSet` compares `abs(set)`, which for `INT_MIN` is `INT_MIN`, with
127. -/
theorem commanded_leaves_range_at_INT_MIN :
    (∀ j, ((InitializeMotorManager (fun _ => 0)).Motors j).commanded = 0) ∧
      ∃ st, runOps (InitializeMotorManager (fun _ => 0))
          [MotorOp.set 3 (-2147483648) false] = Except.ok st ∧
        (st.Motors 2).commanded = -2147483648 ∧
        ¬ (-127 ≤ (st.Motors 2).commanded ∧ (st.Motors 2).commanded ≤ 127) :=
  ⟨fun _ => rfl, _, rfl, by decide, by decide⟩

/-- C17: `MotorSet` with `immediate = false` writes no hardware output: every
output and every lock is as before, every motor other than the one of the
channel is as before, and of that motor only the stored target can differ.
`MotorSet` with `immediate = true` on a channel in 1..10 whose lock is free
returns true, writes to the output of that channel the value it stores as
`commanded`, leaves every other output as it was, and stores what the call
without `immediate` stores. -/
theorem MotorSet_hardware_frame (st : MotorState) (channel v : Int) :
    ((MotorSet st channel v false).2.hw = st.hw ∧
      (MotorSet st channel v false).2.mutexFree = st.mutexFree ∧
      (∀ j, j ≠ channel - 1 → (MotorSet st channel v false).2.Motors j = st.Motors j) ∧
      { (MotorSet st channel v false).2.Motors (channel - 1) with
          commanded := (st.Motors (channel - 1)).commanded } = st.Motors (channel - 1)) ∧
    (1 ≤ channel ∧ channel ≤ 10 → st.mutexFree (channel - 1) = true →
      (MotorSet st channel v true).1 = true ∧
      (MotorSet st channel v true).2.hw channel =
        ((MotorSet st channel v true).2.Motors (channel - 1)).commanded ∧
      (∀ p, p ≠ channel → (MotorSet st channel v true).2.hw p = st.hw p) ∧
      (MotorSet st channel v true).2.Motors = (MotorSet st channel v false).2.Motors ∧
      (MotorSet st channel v true).2.mutexFree = st.mutexFree) := by
  refine ⟨?_, ?_⟩
  · by_cases h : (channel > 10 ∨ channel < 1) ∨ st.mutexFree (channel - 1) = false
    · rw [MotorSet_noop st channel v false h]
      exact ⟨rfl, rfl, fun j _ => rfl, rfl⟩
    · have hch : 1 ≤ channel ∧ channel ≤ 10 := by
        have := not_or.mp h
        omega
      have hfree : st.mutexFree (channel - 1) = true := by
        have := (not_or.mp h).2
        simpa using this
      rw [MotorSet_snd st channel v false hch hfree]
      refine ⟨by simp, rfl, ?_, ?_⟩
      · intro j hj
        simp [Function.update_noteq hj]
      · simp
  · intro hch hfree
    refine ⟨?_, ?_, ?_, ?_, ?_⟩
    · rw [MotorSet_fst]; simp [hfree]; omega
    · rw [MotorSet_snd st channel v true hch hfree]; simp
    · intro p hp
      rw [MotorSet_snd st channel v true hch hfree]
      simp [Function.update_noteq hp]
    · rw [MotorSet_snd st channel v true hch hfree, MotorSet_snd st channel v false hch hfree]
    · rw [MotorSet_snd st channel v true hch hfree]

/-- C17 on port 3 of a fresh state, commanded to 100: without `immediate` the
output of port 3 stays 0, with `immediate` it becomes the stored -100, and
the output of port 4 stays 0. -/
theorem MotorSet_hardware_frame_witness :
    ((1 : Int) ≤ 3 ∧ (3 : Int) ≤ 10) ∧ exampleState.mutexFree (3 - 1) = true ∧
      (MotorSet exampleState 3 100 false).2.hw 3 = 0 ∧
      ((MotorSet exampleState 3 100 true).2.Motors (3 - 1)).commanded = -100 ∧
      (MotorSet exampleState 3 100 true).2.hw 3 =
        ((MotorSet exampleState 3 100 true).2.Motors (3 - 1)).commanded ∧
      (MotorSet exampleState 3 100 true).2.hw 4 = exampleState.hw 4 :=
  ⟨by decide, rfl,
    by rw [(MotorSet_hardware_frame exampleState 3 100).1.1]; rfl,
    by decide,
    ((MotorSet_hardware_frame exampleState 3 100).2 (by decide) rfl).2.1,
    ((MotorSet_hardware_frame exampleState 3 100).2 (by decide) rfl).2.2.1 4 (by decide)⟩

/-- C18: for every channel in 1..10 whose lock is free,
`MotorConfigure(channel, inv, s)` sets `inverted = inv`, `skewPerMsec = s` and
`RecalculateCommanded` to the identity on the motor of that channel, and
leaves its `commanded` and `lastUpdate`, every other motor, every output and
every lock as they were. -/
theorem MotorConfigure_sets_parameters (st : MotorState) (channel : Int) (inv : Bool)
    (s : Double)
    (hch : 1 ≤ channel ∧ channel ≤ 10) (hfree : st.mutexFree (channel - 1) = true) :
    ∃ st1, MotorConfigure st channel inv s = Except.ok st1 ∧
      (st1.Motors (channel - 1)).inverted = inv ∧
      (st1.Motors (channel - 1)).skewPerMsec = s ∧
      (∀ x, (st1.Motors (channel - 1)).RecalculateCommanded x = x) ∧
      (st1.Motors (channel - 1)).commanded = (st.Motors (channel - 1)).commanded ∧
      (st1.Motors (channel - 1)).lastUpdate = (st.Motors (channel - 1)).lastUpdate ∧
      (∀ j, j ≠ channel - 1 → st1.Motors j = st.Motors j) ∧
      st1.hw = st.hw ∧ st1.mutexFree = st.mutexFree := by
  refine ⟨_, MotorConfigure_ok st channel inv s hch hfree, ?_, ?_, ?_, ?_, ?_, ?_, rfl, rfl⟩
  · simp
  · simp
  · intro x; simp [DefaultRecalculate]
  · simp
  · simp
  · intro j hj
    simp [Function.update_noteq hj]

/-- C18 on port 3 of a state commanded to 100. -/
theorem MotorConfigure_sets_parameters_witness :
    ((1 : Int) ≤ 3 ∧ (3 : Int) ≤ 10) ∧ rampState.mutexFree (3 - 1) = true ∧
      ∃ st1, MotorConfigure rampState 3 true (Double.finite (1 / 4)) = Except.ok st1 ∧
        (st1.Motors (3 - 1)).inverted = true ∧ (st1.Motors (3 - 1)).commanded = 100 :=
  ⟨by decide, rfl,
    match MotorConfigure_sets_parameters rampState 3 true (Double.finite (1 / 4)) (by decide)
        rfl with
    | ⟨st1, h, hinv, _, _, hcmd, _⟩ => ⟨st1, h, hinv, hcmd⟩⟩

/-- C19: for every controller and goal, `PIDControllerSetGoal` yields the state
the specification describes, which is the state of `PIDControllerReset`
followed by `Goal := g`: `Goal = g`, `integral = 0`, `prevError = 0`, and the
gains, the integral bounds, the tolerance, `prevTime` and the two bindings
unchanged. -/
theorem PIDControllerSetGoal_eq_spec (c : PIDController) (g : Int) :
    PIDControllerSetGoal c g = specSetGoal c g ∧
      PIDControllerSetGoal c g = { PIDControllerReset c with Goal := g } ∧
      (PIDControllerSetGoal c g).Goal = g ∧
      (PIDControllerSetGoal c g).integral = 0 ∧
      (PIDControllerSetGoal c g).prevError = 0 ∧
      (PIDControllerSetGoal c g).Kp = c.Kp ∧
      (PIDControllerSetGoal c g).Ki = c.Ki ∧
      (PIDControllerSetGoal c g).Kd = c.Kd ∧
      (PIDControllerSetGoal c g).MaxIntegral = c.MaxIntegral ∧
      (PIDControllerSetGoal c g).MinIntegral = c.MinIntegral ∧
      (PIDControllerSetGoal c g).AcceptableTolerance = c.AcceptableTolerance ∧
      (PIDControllerSetGoal c g).prevTime = c.prevTime ∧
      (PIDControllerSetGoal c g).Execute = c.Execute ∧
      (PIDControllerSetGoal c g).Call = c.Call := by
  refine ⟨rfl, rfl, rfl, rfl, rfl, rfl, rfl, rfl, rfl, rfl, rfl, rfl, rfl, rfl⟩

/-- C20: `PIDControllerReset` is idempotent: applied twice it yields exactly the
state it yields applied once. -/
theorem PIDControllerReset_idempotent (c : PIDController) :
    PIDControllerReset (PIDControllerReset c) = PIDControllerReset c := by
  rfl

/-! ## Lemmas for the third group of claims -/

/-- The function `StopMotorManager` passes no `NULL` handle to `taskDelete`. -/
theorem StopMotorManager_never_null (t : TaskState) (h : ∀ x ∈ t.deleted, x ≠ 0) :
    ∀ x ∈ (StopMotorManager t).deleted, x ≠ 0 := by
  unfold StopMotorManager
  by_cases h0 : t.MotorManagerTaskHandle ≠ 0
  · rw [if_pos h0]
    intro x hx
    simp only [List.mem_append, List.mem_singleton] at hx
    rcases hx with hx | hx
    · exact h x hx
    · rw [hx]; exact h0
  · rw [if_neg h0]; exact h

/-- Each call of `StopMotorManager` with a handle other than `NULL` passes
the handle to `taskDelete` once more and leaves the handle as it is. -/
theorem StopMotorManager_deletes_again (t : TaskState) (h0 : t.MotorManagerTaskHandle ≠ 0) :
    (StopMotorManager t).MotorManagerTaskHandle = t.MotorManagerTaskHandle ∧
      (StopMotorManager (StopMotorManager t)).deleted =
        t.deleted ++ [t.MotorManagerTaskHandle, t.MotorManagerTaskHandle] := by
  unfold StopMotorManager
  simp [h0]


/-! ## The claims, third group -/

/-- C21: in one turn of `MotorManagerTask`, a motor (array index `i` in 0..9)
whose lock cannot be taken is left as it was, with its `commanded`, its
`lastUpdate` and its hardware output; and a motor whose lock is taken and
whose output already equals `RecalculateCommanded(commanded)` receives no
hardware write, keeps its output, and has its `lastUpdate` set to the reading
of `millis()` in line 82, its other fields unchanged. -/
theorem managerPass_skip_and_refresh (st : MotorState) (clock : Int → Millis) (i : Int)
    (hi : 0 ≤ i ∧ i < 10) :
    (st.mutexFree i = false →
      (managerPass st clock).Motors i = st.Motors i ∧
        (managerPass st clock).hw (i + 1) = st.hw (i + 1)) ∧
    (st.mutexFree i = true → st.hw (i + 1) = motorTarget st i →
      rampWrite (st.hw (i + 1)) (motorTarget st i) (st.Motors i).skewPerMsec
          (elapsedMsec (clock i).test (st.Motors i).lastUpdate)
          (elapsedMsec (clock i).step (st.Motors i).lastUpdate) = none ∧
        (managerPass st clock).hw (i + 1) = st.hw (i + 1) ∧
        (managerPass st clock).Motors i = { st.Motors i with lastUpdate := (clock i).stamp } ∧
        ((managerPass st clock).Motors i).lastUpdate = (clock i).stamp) := by
  obtain ⟨a1, a2, _⟩ := managerPass_agree st clock i hi
  refine ⟨?_, ?_⟩
  · intro hlock
    rw [a1, a2, managerVisit_locked st (clock i) i hlock]
    exact ⟨rfl, rfl⟩
  · intro hfree heq
    have hnone : rampWrite (st.hw (i + 1)) (motorTarget st i) (st.Motors i).skewPerMsec
        (elapsedMsec (clock i).test (st.Motors i).lastUpdate)
        (elapsedMsec (clock i).step (st.Motors i).lastUpdate) = none := by
      unfold rampWrite
      simp [heq]
    have hm : (managerPass st clock).Motors i =
        { st.Motors i with lastUpdate := (clock i).stamp } := by
      rw [a2, managerVisit_free st (clock i) i hfree]
      simp
    refine ⟨hnone, ?_, hm, by rw [hm]⟩
    rw [a1, managerVisit_hw, if_pos hfree]
    unfold rampNext
    rw [hnone]

/-- C21 on a state with every lock held and on a state whose outputs equal
the targets. -/
theorem managerPass_skip_and_refresh_witness :
    ((0 : Int) ≤ 2 ∧ (2 : Int) < 10) ∧
      (managerPass lockedState (fun _ => steadyAt 50)).hw (2 + 1) = 0 ∧
      ((managerPass lockedState (fun _ => steadyAt 50)).Motors 2).lastUpdate = 0 ∧
      (managerPass settledState (fun _ => steadyAt 50)).hw (2 + 1) = 100 ∧
      ((managerPass settledState (fun _ => steadyAt 50)).Motors 2).lastUpdate = 50 :=
  ⟨by decide,
    ((managerPass_skip_and_refresh lockedState (fun _ => steadyAt 50) 2 (by decide)).1 rfl).2,
    by
      rw [((managerPass_skip_and_refresh lockedState (fun _ => steadyAt 50) 2
        (by decide)).1 rfl).1]
      rfl,
    ((managerPass_skip_and_refresh settledState (fun _ => steadyAt 50) 2 (by decide)).2
      rfl rfl).2.1,
    ((managerPass_skip_and_refresh settledState (fun _ => steadyAt 50) 2 (by decide)).2
      rfl rfl).2.2.2⟩

/-- C22: when no limit condition applies, `LiftSetLeft` and `LiftSetRight` call
`MotorSet` on the three motors of their side with `max(value, -100)` and the
immediate flag of the caller; and whatever the switches, the value and the
flag, no call of either function carries a value below -100. -/
theorem LiftSet_floor_at_minus_100 (p : LiftPorts) (botlimLow toplimLow : Bool) (value : Int)
    (immediate : Bool)
    (hno : ¬ (botlimLow = true ∧ value < 0) ∧ ¬ (toplimLow = true ∧ value > 0)) :
    LiftSetLeft p botlimLow toplimLow value immediate =
        [⟨p.MOTOR_LIFT_FRONTLEFT, max value (-100), immediate⟩,
          ⟨p.MOTOR_LIFT_REARLEFT, max value (-100), immediate⟩,
          ⟨p.MOTOR_LIFT_MIDDLELEFT, max value (-100), immediate⟩] ∧
      LiftSetRight p botlimLow toplimLow value immediate =
        [⟨p.MOTOR_LIFT_FRONTRIGHT, max value (-100), immediate⟩,
          ⟨p.MOTOR_LIFT_REARRIGHT, max value (-100), immediate⟩,
          ⟨p.MOTOR_LIFT_MIDDLERIGHT, max value (-100), immediate⟩] ∧
      (∀ (b t : Bool) (v : Int) (imm : Bool),
        ∀ c ∈ LiftSetLeft p b t v imm ++ LiftSetRight p b t v imm, -100 ≤ c.set) := by
  have hcond : ¬ ((botlimLow = true ∧ value < 0) ∨ (toplimLow = true ∧ value > 0)) :=
    not_or.mpr hno
  refine ⟨?_, ?_, ?_⟩
  · unfold LiftSetLeft
    rw [if_neg hcond]
    by_cases hv : value < -100
    · rw [if_pos hv, max_eq_right (by omega)]
    · rw [if_neg hv, max_eq_left (by omega)]
  · unfold LiftSetRight
    rw [if_neg hcond]
    by_cases hv : value < -100
    · rw [if_pos hv, max_eq_right (by omega)]
    · rw [if_neg hv, max_eq_left (by omega)]
  · intro b t v imm c hc
    unfold LiftSetLeft LiftSetRight at hc
    by_cases hl : (b = true ∧ v < 0) ∨ (t = true ∧ v > 0)
    · simp only [if_pos hl, List.mem_append, List.mem_cons, List.mem_singleton,
        List.not_mem_nil, or_false] at hc
      rcases hc with (h | h | h) | (h | h | h) <;> subst h <;> simp
    · by_cases hv : v < -100
      · simp only [if_neg hl, if_pos hv, List.mem_append, List.mem_cons, List.mem_singleton,
          List.not_mem_nil, or_false] at hc
        rcases hc with (h | h | h) | (h | h | h) <;> subst h <;> simp
      · simp only [if_neg hl, if_neg hv, List.mem_append, List.mem_cons, List.mem_singleton,
          List.not_mem_nil, or_false] at hc
        rcases hc with (h | h | h) | (h | h | h) <;> subst h <;> simp <;> omega

/-- C22 with value -127 at the top limit and with value 60 at no limit. -/
theorem LiftSet_floor_at_minus_100_witness :
    (¬ (false = true ∧ (-127 : Int) < 0) ∧ ¬ (true = true ∧ (-127 : Int) > 0)) ∧
      LiftSetLeft examplePorts false true (-127) false =
        [⟨2, -100, false⟩, ⟨3, -100, false⟩, ⟨4, -100, false⟩] ∧
      LiftSetRight examplePorts false false 60 true =
        [⟨7, 60, true⟩, ⟨8, 60, true⟩, ⟨9, 60, true⟩] :=
  ⟨by decide,
    (LiftSet_floor_at_minus_100 examplePorts false true (-127) false (by decide)).1,
    (LiftSet_floor_at_minus_100 examplePorts false false 60 true (by decide)).2.1⟩

/-- C23, the code at the failing input: with the handle of the running manager
task (not `NULL`), the first call of `StopMotorManager` passes the handle to
`taskDelete` and leaves the handle as it is, so the second call passes the
same handle to `taskDelete` again; the state after two calls differs from the
state after one. -/
theorem StopMotorManager_second_call_deletes :
    runningTask.MotorManagerTaskHandle = 5 ∧
      (StopMotorManager runningTask).deleted = [5] ∧
      (StopMotorManager runningTask).MotorManagerTaskHandle = 5 ∧
      (StopMotorManager (StopMotorManager runningTask)).deleted = [5, 5] ∧
      StopMotorManager (StopMotorManager runningTask) ≠ StopMotorManager runningTask := by
  decide


end SML
